import Mathlib

/-!
Shallow embedding of the batch bibliographic data loader
(`processing/handler.py`, class `ScopusDBLoader`) of the dsde-2025-project
repository, together with proofs about the claims its specification makes.

Modelling conventions:
* Python values crossing the loader boundary (parsed JSON trees, column
  values handed to psycopg2) are the inductive type `PyVal`.  Python `None`
  and SQL `NULL` are both `PyVal.none`.
* Python operations that can raise (`d.get` on a non-dict, `int(...)` on a
  non-numeric string, iterating `None`, adding an unhashable value to a
  set, ...) return `Except Err _`.
* The Postgres database is a record of tables; each `execute_values`
  bulk statement with `ON CONFLICT ... DO UPDATE` is modelled as the rows
  applied left to right, with the Postgres error "ON CONFLICT DO UPDATE
  command cannot affect row a second time" raised when two rows of one
  statement carry the same (non-null) conflict key.  `DO NOTHING`
  statements skip conflicting rows silently.  `RETURNING` lists are the
  affected rows in statement order.  The `updated_at = CURRENT_TIMESTAMP`
  column of `papers` is not modelled (it is the only wall-clock value in
  the subsystem).
* The schema itself (`CREATE TABLE` statements) is not part of the
  repository; following the specification (§6), every table carries a
  uniqueness constraint on its natural key, and natural-key columns are
  nullable, with SQL `NULL` never equal to anything in a unique index.
* Stateful loader methods become functions `Loader → ... → Except Err α ×
  Loader`: mutations performed before an exception persist, as in Python.
* The optional `task_callback` only receives progress labels and its
  exceptions are not guarded in the source; it cannot influence any of
  the properties below and is left out of the model.  The
  `progress_callback` is modelled, including the `try/except: pass`
  guard around its invocation.
-/

namespace Scopus

/-- A Python value at the loader boundary (JSON tree / SQL cell). -/
inductive PyVal where
  | none
  | str (s : String)
  | int (n : Int)
  | bool (b : Bool)
  | list (xs : List PyVal)
  | dict (fields : List (String × PyVal))
deriving Repr

mutual

/-- Structural equality of Python values (`==` on scalars/containers). -/
def PyVal.beq : PyVal → PyVal → Bool
  | .none, .none => true
  | .str a, .str b => a == b
  | .int a, .int b => a == b
  | .bool a, .bool b => a == b
  | .list a, .list b => PyVal.beqList a b
  | .dict a, .dict b => PyVal.beqFields a b
  | _, _ => false

def PyVal.beqList : List PyVal → List PyVal → Bool
  | [], [] => true
  | a :: as, b :: bs => PyVal.beq a b && PyVal.beqList as bs
  | _, _ => false

def PyVal.beqFields : List (String × PyVal) → List (String × PyVal) → Bool
  | [], [] => true
  | (k, v) :: as, (k', v') :: bs => k == k' && PyVal.beq v v' && PyVal.beqFields as bs
  | _, _ => false

end

instance : BEq PyVal := ⟨PyVal.beq⟩

mutual

theorem PyVal.beq_eq : ∀ a b : PyVal, PyVal.beq a b = true → a = b
  | .none, .none, _ => rfl
  | .str a, .str b, h => by simpa [PyVal.beq] using congrArg PyVal.str (by exact of_decide_eq_true (by simpa [PyVal.beq, BEq.beq] using h))
  | .int a, .int b, h => by
      have : a = b := by simpa [PyVal.beq, beq_iff_eq] using h
      rw [this]
  | .bool a, .bool b, h => by
      have : a = b := by simpa [PyVal.beq, beq_iff_eq] using h
      rw [this]
  | .list a, .list b, h => by
      have : a = b := PyVal.beqList_eq a b (by simpa [PyVal.beq] using h)
      rw [this]
  | .dict a, .dict b, h => by
      have : a = b := PyVal.beqFields_eq a b (by simpa [PyVal.beq] using h)
      rw [this]

theorem PyVal.beqList_eq : ∀ a b : List PyVal, PyVal.beqList a b = true → a = b
  | [], [], _ => rfl
  | a :: as, b :: bs, h => by
      simp only [PyVal.beqList, Bool.and_eq_true] at h
      have h1 := PyVal.beq_eq a b h.1
      have h2 := PyVal.beqList_eq as bs h.2
      rw [h1, h2]

theorem PyVal.beqFields_eq :
    ∀ a b : List (String × PyVal), PyVal.beqFields a b = true → a = b
  | [], [], _ => rfl
  | (k, v) :: as, (k', v') :: bs, h => by
      simp only [PyVal.beqFields, Bool.and_eq_true] at h
      have hk : k = k' := by simpa [beq_iff_eq] using h.1.1
      have hv := PyVal.beq_eq v v' h.1.2
      have hr := PyVal.beqFields_eq as bs h.2
      rw [hk, hv, hr]

end

mutual

theorem PyVal.beq_refl : ∀ a : PyVal, PyVal.beq a a = true
  | .none => rfl
  | .str a => by simp [PyVal.beq]
  | .int a => by simp [PyVal.beq]
  | .bool a => by simp [PyVal.beq]
  | .list a => by simpa [PyVal.beq] using PyVal.beqList_refl a
  | .dict a => by simpa [PyVal.beq] using PyVal.beqFields_refl a

theorem PyVal.beqList_refl : ∀ a : List PyVal, PyVal.beqList a a = true
  | [] => rfl
  | a :: as => by
      simp only [PyVal.beqList, Bool.and_eq_true]
      exact ⟨PyVal.beq_refl a, PyVal.beqList_refl as⟩

theorem PyVal.beqFields_refl :
    ∀ a : List (String × PyVal), PyVal.beqFields a a = true
  | [] => rfl
  | (k, v) :: as => by
      simp only [PyVal.beqFields, Bool.and_eq_true]
      exact ⟨⟨by simp, PyVal.beq_refl v⟩, PyVal.beqFields_refl as⟩

end

instance : LawfulBEq PyVal where
  eq_of_beq h := PyVal.beq_eq _ _ h
  rfl := PyVal.beq_refl _

instance : DecidableEq PyVal := fun a b =>
  if h : PyVal.beq a b = true then .isTrue (PyVal.beq_eq a b h)
  else .isFalse (fun he => h (he ▸ PyVal.beq_refl a))

/-- Python truthiness (`if x:`). -/
def PyVal.truthy : PyVal → Bool
  | .none => false
  | .str s => s ≠ ""
  | .int n => n ≠ 0
  | .bool b => b
  | .list xs => !xs.isEmpty
  | .dict fs => !fs.isEmpty

/-- `x is None` / SQL `IS NULL`. -/
def PyVal.isNone : PyVal → Bool
  | .none => true
  | _ => false

/-- `isinstance(x, list)`. -/
def PyVal.isList : PyVal → Bool
  | .list _ => true
  | _ => false

/-- `isinstance(x, dict)`. -/
def PyVal.isDict : PyVal → Bool
  | .dict _ => true
  | _ => false

/-- Errors raised by the embedded Python / SQL operations. -/
inductive Err where
  | attrError    -- e.g. `.get` on a non-dict
  | typeError    -- e.g. iterating None, unhashable set element
  | valueError   -- e.g. int() on a non-numeric string
  | sqlError     -- e.g. ON CONFLICT DO UPDATE affecting a row twice
deriving Repr, DecidableEq

/-- `d.get(k, default)`: raises unless `d` is a dict; a key stored with
value `None` returns `None`, not the default. -/
def pyGet (d : PyVal) (k : String) (default : PyVal) : Except Err PyVal :=
  match d with
  | .dict fs =>
    match fs.find? (fun kv => kv.1 == k) with
    | some kv => .ok kv.2
    | none => .ok default
  | _ => .error .attrError

/-- `d[k]`: raises KeyError/TypeError unless `d` is a dict holding `k`. -/
def pyIndex (d : PyVal) (k : String) : Except Err PyVal :=
  match d with
  | .dict fs =>
    match fs.find? (fun kv => kv.1 == k) with
    | some kv => .ok kv.2
    | none => .error .typeError
  | _ => .error .typeError

/-- `a or b`. -/
def pyOr (a b : PyVal) : PyVal := if a.truthy then a else b

/-- `for x in v`: lists yield elements, dicts yield their keys, strings
yield their characters; other values raise TypeError. -/
def pyIter : PyVal → Except Err (List PyVal)
  | .list xs => .ok xs
  | .dict fs => .ok (fs.map (fun kv => PyVal.str kv.1))
  | .str s => .ok (s.toList.map (fun c => PyVal.str (String.mk [c])))
  | _ => .error .typeError

/-- `int(x)`: ints pass through, bools coerce, strings must be (optionally
sign-prefixed) digits; everything else raises. -/
def pyInt (v : PyVal) : Except Err Int :=
  match v with
  | .int n => .ok n
  | .bool b => .ok (if b then 1 else 0)
  | .str s =>
    match s.toInt? with
    | some n => .ok n
    | none => .error .valueError
  | _ => .error .valueError

/-- `str(x)` for the scalar values that reach it in the loader (cache-key
coercion and f-string interpolation); container reprs are not needed by
any theorem below and are collapsed to the empty string. -/
def pyStrS (v : PyVal) : String :=
  match v with
  | .str s => s
  | .int n => toString n
  | .bool b => cond b "True" "False"
  | .none => "None"
  | _ => ""

/-- `str(x)` as a Python value. -/
def pyStr (v : PyVal) : PyVal := .str (pyStrS v)

/-- `s.add(v)` on a Python set (modelled as an insertion-ordered
duplicate-free list); unhashable values raise TypeError. -/
def pySetAdd (s : List PyVal) (v : PyVal) : Except Err (List PyVal) :=
  match v with
  | .list _ => .error .typeError
  | .dict _ => .error .typeError
  | _ => if s.contains v then .ok s else .ok (s ++ [v])

/-- `if xs and not isinstance(xs, list): xs = [xs]`. -/
def normToList (v : PyVal) : PyVal :=
  if v.truthy && !v.isList then .list [v] else v

/-- SQL `COALESCE(a, b)`. -/
def sqlCoalesce (a b : PyVal) : PyVal := if a.isNone then b else a

/-- Conflict test of a unique index: two non-null equal keys conflict,
NULL conflicts with nothing. -/
def keyConflict (a b : PyVal) : Bool := !a.isNone && !b.isNone && a == b

/-! ### Tables and upsert semantics -/

/-- A table with a serial id sequence (Postgres serials start at 1). -/
structure Table (ρ : Type) where
  rows : List ρ
  nextId : Nat
deriving Repr

/-- The empty table. -/
def Table.empty : Table ρ := ⟨[], 1⟩

/-- Update the first row satisfying `p` with `f`, returning the updated
row (if any) and the new row list. -/
def updateFirst (p : ρ → Bool) (f : ρ → ρ) : List ρ → Option ρ × List ρ
  | [] => (none, [])
  | r :: rs =>
    if p r then (some (f r), f r :: rs)
    else
      let (o, rs') := updateFirst p f rs
      (o, r :: rs')

/-- Semantics of one `INSERT ... ON CONFLICT ... DO UPDATE ... RETURNING`
statement family: how a value row conflicts with a stored row, when two
value rows of the same statement would affect the same stored row, how a
conflicting stored row is updated, how a fresh row is created, and what
`RETURNING` projects from the affected row. -/
structure UpsertSpec (υ ρ α : Type) where
  conflict : υ → ρ → Bool
  dup : υ → υ → Bool
  merge : υ → ρ → ρ
  create : Nat → υ → ρ
  out : ρ → α

/-- Apply a single value row: update the first conflicting stored row, or
append a fresh row with the next serial id. -/
def upsertOne (S : UpsertSpec υ ρ α) (t : Table ρ) (v : υ) : α × Table ρ :=
  match updateFirst (fun r => S.conflict v r) (S.merge v) t.rows with
  | (some r, rows') => (S.out r, { t with rows := rows' })
  | (none, _) =>
    let r := S.create t.nextId v
    (S.out r, { rows := t.rows ++ [r], nextId := t.nextId + 1 })

/-- Apply the rows of ONE SQL statement (one psycopg2 page of an
`execute_values` call) left to right.  Postgres raises "ON CONFLICT DO
UPDATE command cannot affect row a second time" when two rows of the
same statement share a conflict key; `prev` holds the value rows of
this statement already applied.  A statement is atomic: on error it
applies nothing. -/
def bulkUpsert (S : UpsertSpec υ ρ α) (t : Table ρ) (prev : List υ) :
    List υ → Except Err (List α × Table ρ)
  | [] => .ok ([], t)
  | v :: vs =>
    if prev.any (fun v' => S.dup v' v) then .error .sqlError
    else
      let (a, t') := upsertOne S t v
      match bulkUpsert S t' (v :: prev) vs with
      | .error e => .error e
      | .ok (as, t'') => .ok (a :: as, t'')

/-- psycopg2's `execute_values` default `page_size`. -/
def pageSize : Nat := 100

/-- Split an `execute_values` argslist into pages of `n` rows (the last
page may be short): `cur` holds the current page reversed, `k` its
remaining capacity. -/
def chunkGo (n : Nat) : List υ → List υ → Nat → List (List υ)
  | [], cur, _ => [cur.reverse]
  | v :: vs, cur, 0 => cur.reverse :: chunkGo n vs [v] (n - 1)
  | v :: vs, cur, k + 1 => chunkGo n vs (v :: cur) k

def chunks (n : Nat) (l : List υ) : List (List υ) := chunkGo n l [] n

/-- Run the pages of one `execute_values` call left to right: each page
is one SQL statement, a failing page aborts the call (the completed
pages' writes stay in the session), and with the default `fetch=False`
the cursor afterwards holds only the LAST page's `RETURNING` rows —
which is what the `cur.fetchall()` that follows each call sees. -/
def execPages (S : UpsertSpec υ ρ α) (t : Table ρ) :
    List (List υ) → Except Err (List α) × Table ρ
  | [] => (.ok [], t)
  | page :: rest =>
    match bulkUpsert S t [] page with
    | .error e => (.error e, t)
    | .ok (rets, t') =>
      if rest.isEmpty then (.ok rets, t')
      else execPages S t' rest

/-- `execute_values(cur, sql, rows)` followed by `cur.fetchall()`, with
the default `page_size=100, fetch=False`. -/
def bulkUpsertPaged (S : UpsertSpec υ ρ α) (t : Table ρ) (vs : List υ) :
    Except Err (List α) × Table ρ :=
  execPages S t (chunks pageSize vs)

/-- `INSERT ... ON CONFLICT ... DO NOTHING` for one row of a link table
without a serial id: a row whose composite key is already present is
skipped silently. -/
def insertIfAbsent (eqKey : ρ → ρ → Bool) (rows : List ρ) (v : ρ) : List ρ :=
  if rows.any (fun r => eqKey r v) then rows else rows ++ [v]

/-- Bulk `DO NOTHING` insert, rows applied left to right (an in-statement
duplicate conflicts with the row just inserted and is skipped). -/
def bulkInsertIfAbsent (eqKey : ρ → ρ → Bool) (rows : List ρ) :
    List ρ → List ρ
  | [] => rows
  | v :: vs => bulkInsertIfAbsent eqKey (insertIfAbsent eqKey rows v) vs

/-! ### Row and value types (schema of §3/§6 of the spec) -/

structure SourceRow where
  id : Nat
  sourceName : PyVal
  sourceAbbrev : PyVal
  scopusSourceId : PyVal
  issnPrint : PyVal
  issnElectronic : PyVal
  publisher : PyVal
  sourceType : PyVal
deriving Repr, DecidableEq

/-- Value tuple built by extraction for `sources`
(`source_name, source_abbrev, scopus_source_id, issn_print,
issn_electronic, publisher, source_type`). -/
structure SourceVals where
  sourceName : PyVal
  sourceAbbrev : PyVal
  scopusSourceId : PyVal
  issnPrint : PyVal
  issnElectronic : PyVal
  publisher : PyVal
  sourceType : PyVal
deriving Repr, DecidableEq

structure AffiliationRow where
  id : Nat
  scopusAffiliationId : PyVal
  affiliationName : PyVal
  city : PyVal
  state : PyVal
  country : PyVal
  postalCode : PyVal
deriving Repr, DecidableEq

structure AffiliationVals where
  scopusAffiliationId : PyVal
  affiliationName : PyVal
  city : PyVal
  state : PyVal
  country : PyVal
  postalCode : PyVal
deriving Repr, DecidableEq

structure AuthorRow where
  id : Nat
  auid : PyVal
  surname : PyVal
  givenName : PyVal
  initials : PyVal
  indexedName : PyVal
deriving Repr, DecidableEq

structure AuthorVals where
  auid : PyVal
  surname : PyVal
  givenName : PyVal
  initials : PyVal
  indexedName : PyVal
deriving Repr, DecidableEq

structure SubjectRow where
  id : Nat
  subjectCode : PyVal
  subjectName : PyVal
  subjectAbbrev : PyVal
deriving Repr, DecidableEq

structure SubjectVals where
  subjectCode : PyVal
  subjectName : PyVal
  subjectAbbrev : PyVal
deriving Repr, DecidableEq

structure KeywordRow where
  id : Nat
  keyword : PyVal
  keywordType : PyVal
deriving Repr, DecidableEq

structure KeywordVals where
  keyword : PyVal
  keywordType : PyVal
deriving Repr, DecidableEq

structure PaperRow where
  id : Nat
  scopusId : PyVal
  eid : PyVal
  doi : PyVal
  title : PyVal
  abstract : PyVal
  publicationDate : PyVal
  publicationYear : Option Int
  sourceId : Option Nat
  sourceTypeAgg : PyVal
  volume : PyVal
  issue : PyVal
  pageRange : PyVal
  startPage : PyVal
  endPage : PyVal
  citedByCount : Int
  openAccess : Bool
  documentType : PyVal
  subtypeDescription : PyVal
deriving Repr, DecidableEq

structure PaperVals where
  scopusId : PyVal
  eid : PyVal
  doi : PyVal
  title : PyVal
  abstract : PyVal
  publicationDate : PyVal
  publicationYear : Option Int
  sourceId : Option Nat
  sourceTypeAgg : PyVal
  volume : PyVal
  issue : PyVal
  pageRange : PyVal
  startPage : PyVal
  endPage : PyVal
  citedByCount : Int
  openAccess : Bool
  documentType : PyVal
  subtypeDescription : PyVal
deriving Repr, DecidableEq

structure PaperAuthorRow where
  id : Nat
  paperId : Nat
  authorId : Nat
  authorSequence : Int
deriving Repr, DecidableEq

structure PaperAuthorVals where
  paperId : Nat
  authorId : Nat
  authorSequence : Int
deriving Repr, DecidableEq

structure PaperAuthorAffRow where
  paperAuthorId : Nat
  affiliationId : Nat
deriving Repr, DecidableEq

structure PaperKeywordRow where
  paperId : Nat
  keywordId : Nat
  keywordType : PyVal
deriving Repr, DecidableEq

structure PaperSubjectRow where
  paperId : Nat
  subjectAreaId : Nat
deriving Repr, DecidableEq

structure ReferenceRow where
  paperId : Nat
  referenceSequence : Int
  referenceFulltext : PyVal
  citedYear : PyVal
  citedVolume : PyVal
  citedPages : PyVal
deriving Repr, DecidableEq

structure FundingAgencyRow where
  id : Nat
  agencyName : PyVal
  agencyAcronym : PyVal
  agencyCountry : PyVal
  scopusAgencyId : PyVal
deriving Repr, DecidableEq

structure PaperFundingRow where
  paperId : Nat
  agencyId : Nat
  grantId : PyVal
deriving Repr, DecidableEq

/-! ### Upsert specs: one per SQL statement shape in `handler.py` -/

/-- `INSERT INTO sources ... ON CONFLICT (scopus_source_id) DO UPDATE`
coalescing all six non-key columns, `RETURNING source_id,
scopus_source_id` (bulk statement of `_bulk_upsert_dimensions`). -/
def sourcesBulkSpec : UpsertSpec SourceVals SourceRow (Nat × PyVal) where
  conflict v r := keyConflict v.scopusSourceId r.scopusSourceId
  dup v v' := keyConflict v.scopusSourceId v'.scopusSourceId
  merge v r :=
    { r with
      sourceName := sqlCoalesce v.sourceName r.sourceName
      sourceAbbrev := sqlCoalesce v.sourceAbbrev r.sourceAbbrev
      issnPrint := sqlCoalesce v.issnPrint r.issnPrint
      issnElectronic := sqlCoalesce v.issnElectronic r.issnElectronic
      publisher := sqlCoalesce v.publisher r.publisher
      sourceType := sqlCoalesce v.sourceType r.sourceType }
  create i v :=
    { id := i, sourceName := v.sourceName, sourceAbbrev := v.sourceAbbrev
      scopusSourceId := v.scopusSourceId, issnPrint := v.issnPrint
      issnElectronic := v.issnElectronic, publisher := v.publisher
      sourceType := v.sourceType }
  out r := (r.id, r.scopusSourceId)

/-- Fallback single-row source upsert of `_resolve_source_id`: on
conflict only `source_name` is coalesced, `RETURNING source_id`. -/
def sourcesFallbackSpec : UpsertSpec SourceVals SourceRow Nat where
  conflict v r := keyConflict v.scopusSourceId r.scopusSourceId
  dup v v' := keyConflict v.scopusSourceId v'.scopusSourceId
  merge v r := { r with sourceName := sqlCoalesce v.sourceName r.sourceName }
  create i v :=
    { id := i, sourceName := v.sourceName, sourceAbbrev := v.sourceAbbrev
      scopusSourceId := v.scopusSourceId, issnPrint := v.issnPrint
      issnElectronic := v.issnElectronic, publisher := v.publisher
      sourceType := v.sourceType }
  out r := r.id

/-- `INSERT INTO affiliations ... ON CONFLICT (scopus_affiliation_id) DO
UPDATE` coalescing all five non-key columns, `RETURNING affiliation_id,
scopus_affiliation_id`. -/
def affiliationsBulkSpec :
    UpsertSpec AffiliationVals AffiliationRow (Nat × PyVal) where
  conflict v r := keyConflict v.scopusAffiliationId r.scopusAffiliationId
  dup v v' := keyConflict v.scopusAffiliationId v'.scopusAffiliationId
  merge v r :=
    { r with
      affiliationName := sqlCoalesce v.affiliationName r.affiliationName
      city := sqlCoalesce v.city r.city
      state := sqlCoalesce v.state r.state
      country := sqlCoalesce v.country r.country
      postalCode := sqlCoalesce v.postalCode r.postalCode }
  create i v :=
    { id := i, scopusAffiliationId := v.scopusAffiliationId
      affiliationName := v.affiliationName, city := v.city, state := v.state
      country := v.country, postalCode := v.postalCode }
  out r := (r.id, r.scopusAffiliationId)

/-- `INSERT INTO authors ... ON CONFLICT (auid) DO UPDATE SET surname =
COALESCE(EXCLUDED.surname, authors.surname)` — only the surname is
merged — `RETURNING author_id, auid`. -/
def authorsBulkSpec : UpsertSpec AuthorVals AuthorRow (Nat × PyVal) where
  conflict v r := keyConflict v.auid r.auid
  dup v v' := keyConflict v.auid v'.auid
  merge v r := { r with surname := sqlCoalesce v.surname r.surname }
  create i v :=
    { id := i, auid := v.auid, surname := v.surname
      givenName := v.givenName, initials := v.initials
      indexedName := v.indexedName }
  out r := (r.id, r.auid)

/-- The fallback single-row author upsert uses the same statement but
`RETURNING author_id` only. -/
def authorsFallbackSpec : UpsertSpec AuthorVals AuthorRow Nat where
  conflict v r := keyConflict v.auid r.auid
  dup v v' := keyConflict v.auid v'.auid
  merge v r := { r with surname := sqlCoalesce v.surname r.surname }
  create i v :=
    { id := i, auid := v.auid, surname := v.surname
      givenName := v.givenName, initials := v.initials
      indexedName := v.indexedName }
  out r := r.id

/-- `INSERT INTO subject_areas ... ON CONFLICT (subject_code) DO UPDATE
SET subject_name = COALESCE(...)` — only the name is merged —
`RETURNING subject_area_id, subject_code`. -/
def subjectsBulkSpec : UpsertSpec SubjectVals SubjectRow (Nat × PyVal) where
  conflict v r := keyConflict v.subjectCode r.subjectCode
  dup v v' := keyConflict v.subjectCode v'.subjectCode
  merge v r := { r with subjectName := sqlCoalesce v.subjectName r.subjectName }
  create i v :=
    { id := i, subjectCode := v.subjectCode, subjectName := v.subjectName
      subjectAbbrev := v.subjectAbbrev }
  out r := (r.id, r.subjectCode)

/-- Fallback single-row subject upsert, `RETURNING subject_area_id`. -/
def subjectsFallbackSpec : UpsertSpec SubjectVals SubjectRow Nat where
  conflict v r := keyConflict v.subjectCode r.subjectCode
  dup v v' := keyConflict v.subjectCode v'.subjectCode
  merge v r := { r with subjectName := sqlCoalesce v.subjectName r.subjectName }
  create i v :=
    { id := i, subjectCode := v.subjectCode, subjectName := v.subjectName
      subjectAbbrev := v.subjectAbbrev }
  out r := r.id

/-- `INSERT INTO keywords (keyword, keyword_type) ... ON CONFLICT
(keyword) DO UPDATE SET keyword = EXCLUDED.keyword` — the type column is
never updated — `RETURNING keyword_id, keyword`. -/
def keywordsBulkSpec : UpsertSpec KeywordVals KeywordRow (Nat × PyVal) where
  conflict v r := keyConflict v.keyword r.keyword
  dup v v' := keyConflict v.keyword v'.keyword
  merge v r := { r with keyword := v.keyword }
  create i v := { id := i, keyword := v.keyword, keywordType := v.keywordType }
  out r := (r.id, r.keyword)

/-- `_insert_keyword_single`: same statement, `RETURNING keyword_id`. -/
def keywordsSingleSpec : UpsertSpec KeywordVals KeywordRow Nat where
  conflict v r := keyConflict v.keyword r.keyword
  dup v v' := keyConflict v.keyword v'.keyword
  merge v r := { r with keyword := v.keyword }
  create i v := { id := i, keyword := v.keyword, keywordType := v.keywordType }
  out r := r.id

/-- `INSERT INTO papers ... ON CONFLICT (scopus_id) DO UPDATE SET
cited_by_count = EXCLUDED.cited_by_count, updated_at = CURRENT_TIMESTAMP
RETURNING scopus_id, paper_id`. -/
def papersBulkSpec : UpsertSpec PaperVals PaperRow (PyVal × Nat) where
  conflict v r := keyConflict v.scopusId r.scopusId
  dup v v' := keyConflict v.scopusId v'.scopusId
  merge v r := { r with citedByCount := v.citedByCount }
  create i v :=
    { id := i, scopusId := v.scopusId, eid := v.eid, doi := v.doi
      title := v.title, abstract := v.abstract
      publicationDate := v.publicationDate
      publicationYear := v.publicationYear, sourceId := v.sourceId
      sourceTypeAgg := v.sourceTypeAgg, volume := v.volume, issue := v.issue
      pageRange := v.pageRange, startPage := v.startPage, endPage := v.endPage
      citedByCount := v.citedByCount, openAccess := v.openAccess
      documentType := v.documentType
      subtypeDescription := v.subtypeDescription }
  out r := (r.scopusId, r.id)

/-- `INSERT INTO paper_authors ... ON CONFLICT (paper_id, author_id) DO
UPDATE SET author_sequence = EXCLUDED.author_sequence RETURNING
paper_author_id, paper_id, author_id`. -/
def paperAuthorsBulkSpec :
    UpsertSpec PaperAuthorVals PaperAuthorRow (Nat × Nat × Nat) where
  conflict v r := v.paperId == r.paperId && v.authorId == r.authorId
  dup v v' := v.paperId == v'.paperId && v.authorId == v'.authorId
  merge v r := { r with authorSequence := v.authorSequence }
  create i v :=
    { id := i, paperId := v.paperId, authorId := v.authorId
      authorSequence := v.authorSequence }
  out r := (r.id, r.paperId, r.authorId)

/-! ### Database, connection and loader state -/

/-- One storage round trip, for counting operations. -/
inductive DbOp where
  | bulkSources | bulkAffiliations | bulkAuthors | bulkSubjects
  | bulkKeywords
  | bulkPapers | bulkPaperAuthors | bulkPaperAuthorAffs | bulkPaperKeywords
  | bulkPaperSubjects | bulkReferences
  | singleSource | singleAuthor | singleSubject | singleKeyword
  | selectAgency | insertAgency | selectPaperFunding | insertPaperFunding
deriving Repr, DecidableEq

/-- The thirteen tables of the normalized schema. -/
structure DB where
  sources : Table SourceRow
  affiliations : Table AffiliationRow
  authors : Table AuthorRow
  subjectAreas : Table SubjectRow
  keywords : Table KeywordRow
  papers : Table PaperRow
  paperAuthors : Table PaperAuthorRow
  paperAuthorAffiliations : List PaperAuthorAffRow
  paperKeywords : List PaperKeywordRow
  paperSubjectAreas : List PaperSubjectRow
  referencePapers : List ReferenceRow
  fundingAgencies : Table FundingAgencyRow
  paperFunding : List PaperFundingRow
deriving Repr

/-- The empty database. -/
def DB.empty : DB :=
  { sources := Table.empty, affiliations := Table.empty
    authors := Table.empty, subjectAreas := Table.empty
    keywords := Table.empty, papers := Table.empty
    paperAuthors := Table.empty, paperAuthorAffiliations := []
    paperKeywords := [], paperSubjectAreas := [], referencePapers := []
    fundingAgencies := Table.empty, paperFunding := [] }

/-- A storage connection: the session-visible state, the last committed
state, and the trace of issued operations. -/
structure Conn where
  db : DB
  committed : DB
  trace : List DbOp
deriving Repr

/-- In-process identifier caches (Python dicts, natural key → internal
id), modelled as insertion-ordered association lists. -/
abbrev Cache := List (PyVal × Nat)

def cacheGet (c : Cache) (k : PyVal) : Option Nat :=
  match c.find? (fun kv => kv.1 == k) with
  | some kv => some kv.2
  | none => none

def cacheSet (c : Cache) (k : PyVal) (v : Nat) : Cache :=
  if c.any (fun kv => kv.1 == k) then
    c.map (fun kv => if kv.1 == k then (k, v) else kv)
  else c ++ [(k, v)]

/-- State of one `ScopusDBLoader` instance. -/
structure Loader where
  conn : Conn
  srcCache : Cache
  affCache : Cache
  authorCache : Cache
  subjectCache : Cache
  keywordCache : Cache
  ownsConnection : Bool
  manageTx : Bool
  disableMetadataUpsert : Bool
deriving Repr

/-- `ScopusDBLoader(conn_string=...)`: a fresh owned connection sees the
committed state of the shared database; `_manage_tx = _owns_connection =
True`; caches start empty. -/
def mkOwnedLoader (shared : DB) (disable : Bool) : Loader :=
  { conn := ⟨shared, shared, []⟩
    srcCache := [], affCache := [], authorCache := []
    subjectCache := [], keywordCache := []
    ownsConnection := true, manageTx := true
    disableMetadataUpsert := disable }

/-- `ScopusDBLoader(conn=...)`: borrows the caller's connection (with
whatever uncommitted state it has); `_manage_tx = _owns_connection =
False`. -/
def mkBorrowedLoader (c : Conn) (disable : Bool) : Loader :=
  { conn := c
    srcCache := [], affCache := [], authorCache := []
    subjectCache := [], keywordCache := []
    ownsConnection := false, manageTx := false
    disableMetadataUpsert := disable }

/-- Append an operation to the connection trace. -/
def Loader.logOp (l : Loader) (op : DbOp) : Loader :=
  { l with conn := { l.conn with trace := l.conn.trace ++ [op] } }

/-! ### Extraction phase (`_extract_dimension_sets`) -/

/-- Result of `_extract_dimension_sets`: the five deduplicated dimension
maps (insertion-ordered Python dicts / sets) plus the skip flag. -/
structure Ext where
  sources : List (PyVal × SourceVals)
  affiliations : List (PyVal × AffiliationVals)
  authors : List (PyVal × AuthorVals)
  subjects : List (PyVal × SubjectVals)
  keywordsAuthor : List PyVal
  keywordsIndexed : List PyVal
  skipSrcAff : Bool
deriving Repr

/-- Hashability: lists and dicts cannot be dict keys / set elements. -/
def pyHashable : PyVal → Bool
  | .list _ => false
  | .dict _ => false
  | _ => true

/-- `k in m` for the extraction dicts. -/
def emapHas (m : List (PyVal × α)) (k : PyVal) : Bool :=
  m.any (fun kv => kv.1 == k)

/-- `k in m` raising TypeError on an unhashable key. -/
def emapHasE (m : List (PyVal × α)) (k : PyVal) : Except Err Bool :=
  if pyHashable k then .ok (emapHas m k) else .error .typeError

/-- `m[k] = v` for a key not yet present (the extractor only assigns
fresh keys). -/
def emapAdd (m : List (PyVal × α)) (k : PyVal) (v : α) : List (PyVal × α) :=
  m ++ [(k, v)]

/-- `try: data["item"]["bibrecord"]["head"]["source"] except Exception:
source_info = {}`. -/
def lookupSourceInfo (data : PyVal) : PyVal :=
  match (do
    let a ← pyIndex data "item"
    let b ← pyIndex a "bibrecord"
    let c ← pyIndex b "head"
    pyIndex c "source" : Except Err PyVal) with
  | .ok v => v
  | .error _ => .dict []

/-- The `for issn in issn_list` scan filling `issn_print`/`issn_elec`. -/
def scanIssn (p e : PyVal) : List PyVal → Except Err (PyVal × PyVal)
  | [] => .ok (p, e)
  | issn :: rest => do
    let t ← pyGet issn "@type" .none
    if t == PyVal.str "print" then
      let v ← pyGet issn "$" .none
      scanIssn v e rest
    else if t == PyVal.str "electronic" then
      let v ← pyGet issn "$" .none
      scanIssn p v rest
    else scanIssn p e rest

/-- `.asList` under an `isinstance(_, list)` guard. -/
def PyVal.asList : PyVal → List PyVal
  | .list xs => xs
  | _ => []

/-- The `for aff in affs` loop collecting record-level affiliations. -/
def extractAffsFold (m : List (PyVal × AffiliationVals)) :
    List PyVal → Except Err (List (PyVal × AffiliationVals))
  | [] => .ok m
  | aff :: rest => do
    let scAff ← pyGet aff "@id" .none
    -- `if sc_aff and sc_aff not in affiliations:` (short-circuit, the
    -- membership test raises on an unhashable key)
    if scAff.truthy then do
      if !(← emapHasE m scAff) then
        let name ← pyGet aff "affilname" .none
        let city ← pyGet aff "affiliation-city" .none
        let state ← pyGet aff "state" .none
        let country ← pyGet aff "affiliation-country" .none
        let postal ← pyGet aff "postal-code" .none
        extractAffsFold
          (emapAdd m scAff
            { scopusAffiliationId := scAff, affiliationName := name
              city := city, state := state, country := country
              postalCode := postal }) rest
      else extractAffsFold m rest
    else extractAffsFold m rest

/-- The `for author in ...` loop collecting authors. -/
def extractAuthorsFold (m : List (PyVal × AuthorVals)) :
    List PyVal → Except Err (List (PyVal × AuthorVals))
  | [] => .ok m
  | author :: rest => do
    let auid ← pyGet author "@auid" .none
    if auid.truthy then do
      if !(← emapHasE m auid) then
        let pref ← pyGet author "preferred-name" (.dict [])
        let surname ← pyGet author "ce:surname" .none
        let given ← pyGet pref "ce:given-name" .none
        let initials ← pyGet author "ce:initials" .none
        let indexed ← pyGet author "ce:indexed-name" .none
        extractAuthorsFold
          (emapAdd m auid
            { auid := auid, surname := surname, givenName := given
              initials := initials, indexedName := indexed }) rest
      else extractAuthorsFold m rest
    else extractAuthorsFold m rest

/-- The `for sa in ...` loop collecting subject areas. -/
def extractSubjectsFold (m : List (PyVal × SubjectVals)) :
    List PyVal → Except Err (List (PyVal × SubjectVals))
  | [] => .ok m
  | sa :: rest => do
    let code ← pyGet sa "@code" .none
    if code.truthy then do
      if !(← emapHasE m code) then
        let name ← pyGet sa "$" .none
        let abbr ← pyGet sa "@abbrev" .none
        extractSubjectsFold
          (emapAdd m code
            { subjectCode := code, subjectName := name
              subjectAbbrev := abbr }) rest
      else extractSubjectsFold m rest
    else extractSubjectsFold m rest

/-- `val = (k or {}).get("$") if isinstance(k, dict) else k`. -/
def kwVal (k : PyVal) : Except Err PyVal :=
  if k.isDict then pyGet (pyOr k (.dict [])) "$" .none else pure k

/-- `val = ...; if val: <set>.add(val)` over a keyword element list. -/
def addKeywordVals (s : List PyVal) : List PyVal → Except Err (List PyVal)
  | [] => .ok s
  | k :: rest => do
    let val ← kwVal k
    let s' ← if val.truthy then pySetAdd s val else pure s
    addKeywordVals s' rest

/-- The `---- Sources ----` section of the main extraction loop. -/
def extractSourcesSection (acc : Ext) (data core : PyVal) : Except Err Ext :=
  if acc.skipSrcAff then pure acc else do
    let sourceInfo := lookupSourceInfo data
    let scSrc ← pyGet sourceInfo "@srcid" .none
    if scSrc.truthy then do
      if !(← emapHasE acc.sources scSrc) then
        let issnList ← pyGet sourceInfo "issn" (.list [])
        let (issnP, issnE) ←
          if issnList.isList then scanIssn .none .none issnList.asList
          else pure (.none, .none)
        let pubName ← pyGet core "prism:publicationName" .none
        let abbr ← pyGet sourceInfo "sourcetitle-abbrev" .none
        let publisher ← pyGet core "dc:publisher" .none
        let srcType ← pyGet sourceInfo "@type" .none
        pure { acc with
          sources := emapAdd acc.sources scSrc
            { sourceName := pubName, sourceAbbrev := abbr
              scopusSourceId := scSrc, issnPrint := issnP
              issnElectronic := issnE, publisher := publisher
              sourceType := srcType } }
      else pure acc
    else pure acc

/-- The `---- Affiliations ----` section. -/
def extractAffsSection (acc : Ext) (data : PyVal) : Except Err Ext :=
  if acc.skipSrcAff then pure acc else do
    let affs0 ← pyGet data "affiliation" (.list [])
    let affElems ← pyIter (normToList affs0)
    let affs ← extractAffsFold acc.affiliations affElems
    pure { acc with affiliations := affs }

/-- The `---- Authors ----` section. -/
def extractAuthorsSection (acc : Ext) (data : PyVal) : Except Err Ext := do
  let authorsObj ← pyGet data "authors" (.dict [])
  let authorList ← pyGet authorsObj "author" (.list [])
  let authorElems ← pyIter (pyOr authorList (.list []))
  let authors ← extractAuthorsFold acc.authors authorElems
  pure { acc with authors := authors }

/-- The `---- Subject Areas ----` section. -/
def extractSubjectsSection (acc : Ext) (data : PyVal) : Except Err Ext := do
  let saObj ← pyGet data "subject-areas" (.dict [])
  let saList ← pyGet saObj "subject-area" (.list [])
  let saElems ← pyIter (pyOr saList (.list []))
  let subjects ← extractSubjectsFold acc.subjects saElems
  pure { acc with subjects := subjects }

/-- The author-keyword half of the `---- Keywords ----` section (the
value is normalized to a list before iteration). -/
def extractAuthKwSection (acc : Ext) (data : PyVal) : Except Err Ext := do
  let authKw ← pyGet data "authkeywords" (.dict [])
  if authKw.truthy then do
    let kws0 ← pyGet authKw "author-keyword" (.list [])
    let kws1 := pyOr kws0 (.list [])
    let kws := if !kws1.isList then PyVal.list [kws1] else kws1
    let kwElems ← pyIter kws
    let s ← addKeywordVals acc.keywordsAuthor kwElems
    pure { acc with keywordsAuthor := s }
  else pure acc

/-- The indexed-term half of the `---- Keywords ----` section.  NOTE:
unlike author keywords, the indexed-term value is *not* normalized to a
list before iteration (a single dict iterates over its keys). -/
def extractIdxKwSection (acc : Ext) (data : PyVal) : Except Err Ext := do
  let idxKw ← pyGet data "idxterms" (.dict [])
  if idxKw.truthy then do
    let terms ← pyGet idxKw "idxterm" (.list [])
    let termElems ← pyIter (pyOr terms (.list []))
    let s ← addKeywordVals acc.keywordsIndexed termElems
    pure { acc with keywordsIndexed := s }
  else pure acc

/-- Process one record of `_extract_dimension_sets`'s main loop. -/
def extractRecord (acc : Ext) (data : PyVal) : Except Err Ext := do
  let core ← pyGet data "coredata" (.dict [])
  let acc ← extractSourcesSection acc data core
  let acc ← extractAffsSection acc data
  let acc ← extractAuthorsSection acc data
  let acc ← extractSubjectsSection acc data
  let acc ← extractAuthKwSection acc data
  let acc ← extractIdxKwSection acc data
  pure acc

/-- `_extract_dimension_sets`: a pure function of the record batch (it
holds no reference to the connection). -/
def extractDimensionSets (disable : Bool) (jsonList : List PyVal) :
    Except Err Ext :=
  go { sources := [], affiliations := [], authors := [], subjects := []
       keywordsAuthor := [], keywordsIndexed := [], skipSrcAff := disable }
    jsonList
where
  go (acc : Ext) : List PyVal → Except Err Ext
    | [] => .ok acc
    | data :: rest => do
      let acc' ← extractRecord acc data
      go acc' rest

/-! ### Bulk dimension upserts (`_bulk_upsert_dimensions`) -/

/-- `cache.get(k)` raising TypeError on an unhashable key. -/
def cacheGetE (c : Cache) (k : PyVal) : Except Err (Option Nat) :=
  if pyHashable k then .ok (cacheGet c k) else .error .typeError

/-- `cache[k] = v` raising TypeError on an unhashable key. -/
def cacheSetE (c : Cache) (k : PyVal) (v : Nat) : Except Err Cache :=
  if pyHashable k then .ok (cacheSet c k v) else .error .typeError

/-- `for id_, key in cur.fetchall(): cache[str(key)] = id_`. -/
def cachePopulate (c : Cache) (rets : List (Nat × PyVal)) : Cache :=
  rets.foldl (fun c p => cacheSet c (pyStr p.2) p.1) c

/-- Sources step of `_bulk_upsert_dimensions` (skipped when the skip
flag is set or the deduplicated map is empty). -/
def upsertSourcesStep (l : Loader) (ext : Ext) : Except Err Unit × Loader :=
  if !ext.skipSrcAff && !ext.sources.isEmpty then
    let l := l.logOp .bulkSources
    match bulkUpsertPaged sourcesBulkSpec l.conn.db.sources
        (ext.sources.map (fun kv => kv.2)) with
    | (.error e, t') =>
      (.error e,
       { l with
         conn := { l.conn with db := { l.conn.db with sources := t' } } })
    | (.ok rets, t') =>
      (.ok (),
       { l with
         conn := { l.conn with db := { l.conn.db with sources := t' } }
         srcCache := cachePopulate l.srcCache rets })
  else (.ok (), l)

/-- Affiliations step. -/
def upsertAffiliationsStep (l : Loader) (ext : Ext) :
    Except Err Unit × Loader :=
  if !ext.skipSrcAff && !ext.affiliations.isEmpty then
    let l := l.logOp .bulkAffiliations
    match bulkUpsertPaged affiliationsBulkSpec l.conn.db.affiliations
        (ext.affiliations.map (fun kv => kv.2)) with
    | (.error e, t') =>
      (.error e,
       { l with
         conn := { l.conn with db := { l.conn.db with affiliations := t' } } })
    | (.ok rets, t') =>
      (.ok (),
       { l with
         conn := { l.conn with db := { l.conn.db with affiliations := t' } }
         affCache := cachePopulate l.affCache rets })
  else (.ok (), l)

/-- Authors step (runs regardless of the skip flag). -/
def upsertAuthorsStep (l : Loader) (ext : Ext) : Except Err Unit × Loader :=
  if !ext.authors.isEmpty then
    let l := l.logOp .bulkAuthors
    match bulkUpsertPaged authorsBulkSpec l.conn.db.authors
        (ext.authors.map (fun kv => kv.2)) with
    | (.error e, t') =>
      (.error e,
       { l with
         conn := { l.conn with db := { l.conn.db with authors := t' } } })
    | (.ok rets, t') =>
      (.ok (),
       { l with
         conn := { l.conn with db := { l.conn.db with authors := t' } }
         authorCache := cachePopulate l.authorCache rets })
  else (.ok (), l)

/-- Subject-areas step. -/
def upsertSubjectsStep (l : Loader) (ext : Ext) : Except Err Unit × Loader :=
  if !ext.subjects.isEmpty then
    let l := l.logOp .bulkSubjects
    match bulkUpsertPaged subjectsBulkSpec l.conn.db.subjectAreas
        (ext.subjects.map (fun kv => kv.2)) with
    | (.error e, t') =>
      (.error e,
       { l with
         conn := { l.conn with db := { l.conn.db with subjectAreas := t' } } })
    | (.ok rets, t') =>
      (.ok (),
       { l with
         conn := { l.conn with db := { l.conn.db with subjectAreas := t' } }
         subjectCache := cachePopulate l.subjectCache rets })
  else (.ok (), l)

/-- `all_keywords`: author keywords first (typed "author"), then
indexed keywords not already present as author keywords. -/
def allKeywordRows (ext : Ext) : List KeywordVals :=
  ext.keywordsAuthor.map
    (fun kw => { keyword := kw, keywordType := PyVal.str "author" })
  ++ (ext.keywordsIndexed.filter
        (fun kw => !ext.keywordsAuthor.contains kw)).map
      (fun kw => { keyword := kw, keywordType := PyVal.str "indexed" })

/-- Keywords step. -/
def upsertKeywordsStep (l : Loader) (ext : Ext) : Except Err Unit × Loader :=
  let rows := allKeywordRows ext
  if !rows.isEmpty then
    let l := l.logOp .bulkKeywords
    match bulkUpsertPaged keywordsBulkSpec l.conn.db.keywords rows with
    | (.error e, t') =>
      (.error e,
       { l with
         conn := { l.conn with db := { l.conn.db with keywords := t' } } })
    | (.ok rets, t') =>
      (.ok (),
       { l with
         conn := { l.conn with db := { l.conn.db with keywords := t' } }
         keywordCache := cachePopulate l.keywordCache rets })
  else (.ok (), l)

/-- `_bulk_upsert_dimensions`. -/
def bulkUpsertDimensions (l : Loader) (ext : Ext) :
    Except Err Unit × Loader :=
  match upsertSourcesStep l ext with
  | (.error e, l) => (.error e, l)
  | (.ok _, l) =>
  match upsertAffiliationsStep l ext with
  | (.error e, l) => (.error e, l)
  | (.ok _, l) =>
  match upsertAuthorsStep l ext with
  | (.error e, l) => (.error e, l)
  | (.ok _, l) =>
  match upsertSubjectsStep l ext with
  | (.error e, l) => (.error e, l)
  | (.ok _, l) => upsertKeywordsStep l ext

/-! ### Papers and link tables (`_bulk_insert_papers_and_links`) -/

/-- An optional progress callback; it may raise. -/
abbrev ProgressCb := Nat → Nat → Except Unit Unit

/-- `if progress_callback: try: progress_callback(i, n) except
Exception: pass` — any exception of the callback is swallowed. -/
def safeCall (cb : Option ProgressCb) (i n : Nat) : Unit :=
  match cb with
  | none => ()
  | some f =>
    match f i n with
    | .ok _ => ()
    | .error _ => ()

/-- Python truthiness of an optional row id (`if not pid: continue`). -/
def optTruthy : Option Nat → Bool
  | none => false
  | some n => n != 0

/-- `_resolve_source_id`: cache hit on a truthy `@srcid`, otherwise a
single fallback upsert (which coalesces only `source_name`), caching the
new id only when `@srcid` is truthy. -/
def resolveSourceId (l : Loader) (data : PyVal) : Except Err Nat × Loader :=
  let sourceInfo := lookupSourceInfo data
  match pyGet sourceInfo "@srcid" .none with
  | .error e => (.error e, l)
  | .ok scSrc =>
    match (if scSrc.truthy then cacheGetE l.srcCache scSrc
           else .ok none : Except Err (Option Nat)) with
    | .error e => (.error e, l)
    | .ok (some sid) => (.ok sid, l)
    | .ok none =>
      match (do
        let core ← pyGet data "coredata" (.dict [])
        let issnList ← pyGet sourceInfo "issn" (.list [])
        let (issnP, issnE) ←
          if issnList.isList then scanIssn .none .none issnList.asList
          else pure (PyVal.none, PyVal.none)
        let pubName ← pyGet core "prism:publicationName" .none
        let abbr ← pyGet sourceInfo "sourcetitle-abbrev" .none
        let publisher ← pyGet core "dc:publisher" .none
        let srcType ← pyGet sourceInfo "@type" .none
        pure { sourceName := pubName, sourceAbbrev := abbr
               scopusSourceId := scSrc, issnPrint := issnP
               issnElectronic := issnE, publisher := publisher
               sourceType := srcType } : Except Err SourceVals) with
      | .error e => (.error e, l)
      | .ok vals =>
        let l := l.logOp .singleSource
        let (sid, t') := upsertOne sourcesFallbackSpec l.conn.db.sources vals
        let l :=
          { l with conn := { l.conn with db := { l.conn.db with sources := t' } } }
        let l :=
          if scSrc.truthy then { l with srcCache := cacheSet l.srcCache scSrc sid }
          else l
        (.ok sid, l)

/-- `int(pub_date[:4]) if pub_date else None`. -/
def computePubYear (pubDate : PyVal) : Except Err (Option Int) :=
  if pubDate.truthy then
    match pubDate with
    | .str s => (pyInt (.str (s.take 4))).map some
    | _ => .error .typeError
  else pure none

/-- The per-record core column tuple of the bulk papers insert. -/
def buildPaperVals (core : PyVal) (sid : Nat) :
    Except Err (PyVal × PaperVals) := do
  let pubDate ← pyGet core "prism:coverDate" .none
  let pubYear ← computePubYear pubDate
  let scId ← pyGet core "dc:identifier" .none
  let eid ← pyGet core "eid" .none
  let doi ← pyGet core "prism:doi" .none
  let title ← pyGet core "dc:title" .none
  let descr ← pyGet core "dc:description" .none
  let aggType ← pyGet core "prism:aggregationType" .none
  let volume ← pyGet core "prism:volume" .none
  let issue ← pyGet core "prism:issueIdentifier" .none
  let pageRange ← pyGet core "prism:pageRange" .none
  let startPage ← pyGet core "prism:startingPage" .none
  let endPage ← pyGet core "prism:endingPage" .none
  let cbc ← pyGet core "citedby-count" (.int 0)
  let cited ← pyInt cbc
  let oa ← pyGet core "openaccess" .none
  let subtype ← pyGet core "subtype" .none
  let subtypeDesc ← pyGet core "subtypeDescription" .none
  pure (scId,
    { scopusId := scId, eid := eid, doi := doi, title := title
      abstract := descr, publicationDate := pubDate
      publicationYear := pubYear, sourceId := some sid
      sourceTypeAgg := aggType, volume := volume, issue := issue
      pageRange := pageRange, startPage := startPage, endPage := endPage
      citedByCount := cited, openAccess := oa == PyVal.str "2"
      documentType := subtype, subtypeDescription := subtypeDesc })

/-- The gathering loop over `enumerate(json_list, 1)`: resolves the
source id per record (a rare single insert), builds the column tuples
and the ordered `scopus_ids_in_order`, and fires the guarded progress
callback after each record. -/
def gatherPaperRows (pcb : Option ProgressCb) (total : Nat) (l : Loader)
    (idx : Nat) :
    List PyVal → Except Err (List PaperVals × List PyVal) × Loader
  | [] => (.ok ([], []), l)
  | data :: rest =>
    match pyGet data "coredata" (.dict []) with
    | .error e => (.error e, l)
    | .ok core =>
      match resolveSourceId l data with
      | (.error e, l') => (.error e, l')
      | (.ok sid, l') =>
        match buildPaperVals core sid with
        | .error e => (.error e, l')
        | .ok (scId, pv) =>
          let _ := safeCall pcb idx total
          match gatherPaperRows pcb total l' (idx + 1) rest with
          | (.error e, l'') => (.error e, l'')
          | (.ok (rows, scids), l'') => (.ok (pv :: rows, scId :: scids), l'')

/-- The bulk papers statement, building `paper_id_map` from the
`RETURNING scopus_id, paper_id` rows. -/
def bulkInsertPapersStep (l : Loader) (rows : List PaperVals) :
    Except Err Cache × Loader :=
  if rows.isEmpty then (.ok [], l)
  else
    let l := l.logOp .bulkPapers
    match bulkUpsertPaged papersBulkSpec l.conn.db.papers rows with
    | (.error e, t') =>
      (.error e,
       { l with conn := { l.conn with db := { l.conn.db with papers := t' } } })
    | (.ok rets, t') =>
      let l :=
        { l with conn := { l.conn with db := { l.conn.db with papers := t' } } }
      match (rets.foldlM (fun m p => cacheSetE m p.1 p.2) []
             : Except Err Cache) with
      | .error e => (.error e, l)
      | .ok pmap => (.ok pmap, l)

/-- `paper_ids_ordered = [paper_id_map.get(scid) for scid in
scopus_ids_in_order]`. -/
def orderedIds (pmap : Cache) : List PyVal → Except Err (List (Option Nat))
  | [] => .ok []
  | scid :: rest => do
    let o ← cacheGetE pmap scid
    let os ← orderedIds pmap rest
    pure (o :: os)

/-- Author-id resolution in the linking loop: cache hit or fallback
single upsert (cached under the raw `@auid` value). -/
def resolveAuthorId (l : Loader) (author auid : PyVal) :
    Except Err Nat × Loader :=
  match cacheGetE l.authorCache auid with
  | .error e => (.error e, l)
  | .ok (some aid) => (.ok aid, l)
  | .ok none =>
    match (do
      let pref ← pyGet author "preferred-name" (.dict [])
      let surname ← pyGet author "ce:surname" .none
      let given ← pyGet pref "ce:given-name" .none
      let initials ← pyGet author "ce:initials" .none
      let indexed ← pyGet author "ce:indexed-name" .none
      pure { auid := auid, surname := surname, givenName := given
             initials := initials, indexedName := indexed }
      : Except Err AuthorVals) with
    | .error e => (.error e, l)
    | .ok vals =>
      let l := l.logOp .singleAuthor
      let (aid, t') := upsertOne authorsFallbackSpec l.conn.db.authors vals
      let l :=
        { l with
          conn := { l.conn with db := { l.conn.db with authors := t' } }
          authorCache := cacheSet l.authorCache auid aid }
      (.ok aid, l)

/-- Gather the author-level affiliation links still to be resolved
(`author_aff_rows_pending`). -/
def gatherAuthorAffs (pid aid : Nat) (pending : List (PyVal × Nat × Nat)) :
    List PyVal → Except Err (List (PyVal × Nat × Nat))
  | [] => .ok pending
  | aff :: rest => do
    let scAff ← pyGet aff "@id" .none
    if scAff.truthy then
      gatherAuthorAffs pid aid (pending ++ [(scAff, pid, aid)]) rest
    else gatherAuthorAffs pid aid pending rest

/-- Inner loop over one record's author list. -/
def gatherAuthorsOne (l : Loader) (pid : Nat)
    (paRows : List PaperAuthorVals) (pending : List (PyVal × Nat × Nat)) :
    List PyVal →
      Except Err (List PaperAuthorVals × List (PyVal × Nat × Nat)) × Loader
  | [] => (.ok (paRows, pending), l)
  | author :: rest =>
    match pyGet author "@auid" .none with
    | .error e => (.error e, l)
    | .ok auid =>
      if !auid.truthy then gatherAuthorsOne l pid paRows pending rest
      else
        match resolveAuthorId l author auid with
        | (.error e, l') => (.error e, l')
        | (.ok aid, l') =>
          match (do
            let seqv ← pyGet author "@seq" (.int 0)
            let seq ← pyInt seqv
            let affs0 ← pyGet author "affiliation" (.list [])
            let affElems ← pyIter (normToList affs0)
            let pending' ← gatherAuthorAffs pid aid pending affElems
            pure (seq, pending')
            : Except Err (Int × List (PyVal × Nat × Nat))) with
          | .error e => (.error e, l')
          | .ok (seq, pending') =>
            gatherAuthorsOne l' pid
              (paRows ++ [{ paperId := pid, authorId := aid
                            authorSequence := seq }]) pending' rest

/-- Outer loop over `zip(json_list, paper_ids_ordered)` gathering
`paper_author_rows` and the pending affiliation links. -/
def gatherAuthorsRecords (l : Loader) (paRows : List PaperAuthorVals)
    (pending : List (PyVal × Nat × Nat)) :
    List (PyVal × Option Nat) →
      Except Err (List PaperAuthorVals × List (PyVal × Nat × Nat)) × Loader
  | [] => (.ok (paRows, pending), l)
  | (data, pid) :: rest =>
    if !optTruthy pid then gatherAuthorsRecords l paRows pending rest
    else
      match pid with
      | none => gatherAuthorsRecords l paRows pending rest
      | some p =>
        match (do
          let authorsObj ← pyGet data "authors" (.dict [])
          let authorList ← pyGet authorsObj "author" (.list [])
          pyIter (pyOr authorList (.list []))
          : Except Err (List PyVal)) with
        | .error e => (.error e, l)
        | .ok elems =>
          match gatherAuthorsOne l p paRows pending elems with
          | (.error e, l') => (.error e, l')
          | (.ok (paRows', pending'), l') =>
            gatherAuthorsRecords l' paRows' pending' rest

/-- Association list for `paper_author_id_map` keyed by
`(paper_id, author_id)`. -/
abbrev PaMap := List ((Nat × Nat) × Nat)

def pamGet (m : PaMap) (k : Nat × Nat) : Option Nat :=
  match m.find? (fun kv => kv.1 == k) with
  | some kv => some kv.2
  | none => none

def pamSet (m : PaMap) (k : Nat × Nat) (v : Nat) : PaMap :=
  if m.any (fun kv => kv.1 == k) then
    m.map (fun kv => if kv.1 == k then (k, v) else kv)
  else m ++ [(k, v)]

/-- The bulk `paper_authors` statement, building `paper_author_id_map`
from `RETURNING paper_author_id, paper_id, author_id`. -/
def bulkPaperAuthorsStep (l : Loader) (rows : List PaperAuthorVals) :
    Except Err PaMap × Loader :=
  if rows.isEmpty then (.ok [], l)
  else
    let l := l.logOp .bulkPaperAuthors
    match bulkUpsertPaged paperAuthorsBulkSpec l.conn.db.paperAuthors rows with
    | (.error e, t') =>
      (.error e,
       { l with
         conn := { l.conn with db := { l.conn.db with paperAuthors := t' } } })
    | (.ok rets, t') =>
      (.ok (rets.foldl (fun m p => pamSet m (p.2.1, p.2.2) p.1) []),
       { l with
         conn := { l.conn with db := { l.conn.db with paperAuthors := t' } } })

/-- Resolve the pending affiliation links into `paa_rows`, silently
skipping pairs whose affiliation or paper-author link is unknown. -/
def buildPaaRows (aff : Cache) (pam : PaMap) :
    List (PyVal × Nat × Nat) → Except Err (List PaperAuthorAffRow)
  | [] => .ok []
  | (scAff, p, a) :: rest => do
    -- the `if p_id is None: continue` re-check of the source never
    -- fires: pending rows are only gathered for truthy paper ids
    match ← cacheGetE aff scAff with
    | none => buildPaaRows aff pam rest
    | some affId =>
      match pamGet pam (p, a) with
      | none => buildPaaRows aff pam rest
      | some paId => do
        let others ← buildPaaRows aff pam rest
        pure ({ paperAuthorId := paId, affiliationId := affId } :: others)

/-- Keyword-id resolution in the linking loop (`_insert_keyword_single`
fallback, caching under the raw keyword value). -/
def resolveKeywordId (l : Loader) (val : PyVal) (kwType : String) :
    Except Err Nat × Loader :=
  match cacheGetE l.keywordCache val with
  | .error e => (.error e, l)
  | .ok (some kid) => (.ok kid, l)
  | .ok none =>
    let l := l.logOp .singleKeyword
    let (kid, t') := upsertOne keywordsSingleSpec l.conn.db.keywords
      { keyword := val, keywordType := PyVal.str kwType }
    (.ok kid,
     { l with
       conn := { l.conn with db := { l.conn.db with keywords := t' } }
       keywordCache := cacheSet l.keywordCache val kid })

/-- One keyword-element list of the linking loop (author or indexed). -/
def gatherKeywordList (l : Loader) (pid : Nat) (kwType : String)
    (rows : List PaperKeywordRow) :
    List PyVal → Except Err (List PaperKeywordRow) × Loader
  | [] => (.ok rows, l)
  | k :: rest =>
    match kwVal k with
    | .error e => (.error e, l)
    | .ok val =>
      if !val.truthy then gatherKeywordList l pid kwType rows rest
      else
        match resolveKeywordId l val kwType with
        | (.error e, l') => (.error e, l')
        | (.ok kid, l') =>
          gatherKeywordList l' pid kwType
            (rows ++ [{ paperId := pid, keywordId := kid
                        keywordType := PyVal.str kwType }]) rest

/-- The keyword-gathering loop over `zip(json_list,
paper_ids_ordered)`.  Note: the author-keyword list is normalized to a
list; the indexed-term value is iterated as-is, and neither uses the
`or []` guard present in extraction. -/
def gatherKeywordLinks (l : Loader) (rows : List PaperKeywordRow) :
    List (PyVal × Option Nat) → Except Err (List PaperKeywordRow) × Loader
  | [] => (.ok rows, l)
  | (data, pid) :: rest =>
    if !optTruthy pid then gatherKeywordLinks l rows rest
    else
      match pid with
      | none => gatherKeywordLinks l rows rest
      | some p =>
        match (do
          let authKw ← pyGet data "authkeywords" (.dict [])
          let kws ← if authKw.truthy then pyGet authKw "author-keyword" (.list [])
                    else pure (PyVal.list [])
          pyIter (normToList kws) : Except Err (List PyVal)) with
        | .error e => (.error e, l)
        | .ok authorElems =>
          match gatherKeywordList l p "author" rows authorElems with
          | (.error e, l') => (.error e, l')
          | (.ok rows', l') =>
            match (do
              let idxKw ← pyGet data "idxterms" (.dict [])
              let terms ← if idxKw.truthy then pyGet idxKw "idxterm" (.list [])
                          else pure (PyVal.list [])
              pyIter terms : Except Err (List PyVal)) with
            | .error e => (.error e, l')
            | .ok idxElems =>
              match gatherKeywordList l' p "indexed" rows' idxElems with
              | (.error e, l'') => (.error e, l'')
              | (.ok rows'', l'') => gatherKeywordLinks l'' rows'' rest

/-- Subject-id resolution (fallback single upsert coalescing only the
subject name). -/
def resolveSubjectId (l : Loader) (sa code : PyVal) :
    Except Err Nat × Loader :=
  match cacheGetE l.subjectCache code with
  | .error e => (.error e, l)
  | .ok (some sid) => (.ok sid, l)
  | .ok none =>
    match (do
      let name ← pyGet sa "$" .none
      let abbr ← pyGet sa "@abbrev" .none
      pure ({ subjectCode := code, subjectName := name
              subjectAbbrev := abbr } : SubjectVals)
      : Except Err SubjectVals) with
    | .error e => (.error e, l)
    | .ok vals =>
      let l := l.logOp .singleSubject
      let (sid, t') := upsertOne subjectsFallbackSpec l.conn.db.subjectAreas vals
      (.ok sid,
       { l with
         conn := { l.conn with db := { l.conn.db with subjectAreas := t' } }
         subjectCache := cacheSet l.subjectCache code sid })

/-- One record's subject-area list in the linking loop. -/
def gatherSubjectList (l : Loader) (pid : Nat)
    (rows : List PaperSubjectRow) :
    List PyVal → Except Err (List PaperSubjectRow) × Loader
  | [] => (.ok rows, l)
  | sa :: rest =>
    match pyGet sa "@code" .none with
    | .error e => (.error e, l)
    | .ok code =>
      if !code.truthy then gatherSubjectList l pid rows rest
      else
        match resolveSubjectId l sa code with
        | (.error e, l') => (.error e, l')
        | (.ok sid, l') =>
          gatherSubjectList l' pid
            (rows ++ [{ paperId := pid, subjectAreaId := sid }]) rest

/-- The subject-gathering loop over `zip(json_list,
paper_ids_ordered)`. -/
def gatherSubjectLinks (l : Loader) (rows : List PaperSubjectRow) :
    List (PyVal × Option Nat) → Except Err (List PaperSubjectRow) × Loader
  | [] => (.ok rows, l)
  | (data, pid) :: rest =>
    if !optTruthy pid then gatherSubjectLinks l rows rest
    else
      match pid with
      | none => gatherSubjectLinks l rows rest
      | some p =>
        match (do
          let saObj ← pyGet data "subject-areas" (.dict [])
          let saList ← pyGet saObj "subject-area" (.list [])
          pyIter (pyOr saList (.list [])) : Except Err (List PyVal)) with
        | .error e => (.error e, l)
        | .ok elems =>
          match gatherSubjectList l p rows elems with
          | (.error e, l') => (.error e, l')
          | (.ok rows', l') => gatherSubjectLinks l' rows' rest

/-- One reference entry's column tuple. -/
def buildReferenceRow (pid : Nat) (r : PyVal) : Except Err ReferenceRow := do
  let refInfo ← pyGet r "ref-info" (.dict [])
  let idv ← pyGet r "@id" (.int 0)
  let seq ← pyInt idv
  let fulltext ← pyGet r "ref-fulltext" .none
  let pubYearObj ← pyGet refInfo "ref-publicationyear" (.dict [])
  let year ← pyGet pubYearObj "@first" .none
  let volisspag1 ← pyGet refInfo "ref-volisspag" (.dict [])
  let voliss ← pyGet volisspag1 "voliss" (.dict [])
  let vol ← pyGet voliss "@volume" .none
  let volisspag2 ← pyGet refInfo "ref-volisspag" (.dict [])
  let pagerange ← pyGet volisspag2 "pagerange" (.dict [])
  let pfirst ← pyGet pagerange "@first" .none
  pure { paperId := pid, referenceSequence := seq
         referenceFulltext := fulltext, citedYear := year
         citedVolume := vol, citedPages := pfirst }

/-- The reference-gathering loop (note: the bulk loader does **not**
normalize a single reference object to a list — a dict iterates over
its keys). -/
def gatherReferenceRows (rows : List ReferenceRow) :
    List (PyVal × Option Nat) → Except Err (List ReferenceRow)
  | [] => .ok rows
  | (data, pid) :: rest =>
    if !optTruthy pid then gatherReferenceRows rows rest
    else
      match pid with
      | none => gatherReferenceRows rows rest
      | some p => do
        let item ← pyGet data "item" (.dict [])
        let bibrecord ← pyGet item "bibrecord" (.dict [])
        let bib ← pyGet bibrecord "tail" (.dict [])
        let bibliography ← pyGet bib "bibliography" (.dict [])
        let refsObj ← pyGet bibliography "reference" (.list [])
        let refs ← pyIter (pyOr refsObj (.list []))
        let rows' ← goRefs p rows refs
        gatherReferenceRows rows' rest
where
  goRefs (p : Nat) (rows : List ReferenceRow) :
      List PyVal → Except Err (List ReferenceRow)
    | [] => .ok rows
    | r :: rest => do
      let row ← buildReferenceRow p r
      goRefs p (rows ++ [row]) rest

/-- `_resolve_funding_agency`: lookup by external agency id first, else
by (name, country) with a null-safe country comparison, else insert. -/
def resolveFundingAgency (l : Loader) (f : PyVal) :
    Except Err (Option Nat) × Loader :=
  match (do
    let scId ← pyGet f "xocs:funding-agency-id" .none
    let agency ← pyGet f "xocs:funding-agency" .none
    let acr ← pyGet f "xocs:funding-agency-acronym" .none
    let ctry ← pyGet f "xocs:funding-agency-country" .none
    pure (scId, agency, acr, ctry)
    : Except Err (PyVal × PyVal × PyVal × PyVal)) with
  | .error e => (.error e, l)
  | .ok (scId, agency, acr, ctry) =>
    -- `name = f.get(...) or (sc_id and f"scopus_agency_{sc_id}")`
    let nameAlt :=
      if scId.truthy then PyVal.str ("scopus_agency_" ++ pyStrS scId)
      else scId
    let name := pyOr agency nameAlt
    if scId.truthy then
      let l := l.logOp .selectAgency
      match l.conn.db.fundingAgencies.rows.find?
          (fun r => keyConflict r.scopusAgencyId scId) with
      | some r => (.ok (some r.id), l)
      | none =>
        -- `INSERT ... WHERE NOT EXISTS (...) RETURNING agency_id`; in
        -- this sequential model the guard is the select that just
        -- failed, so the insert happens and returns a row (the
        -- fallback re-select of the source is the concurrent-race
        -- path)
        let l := l.logOp .insertAgency
        let t := l.conn.db.fundingAgencies
        let row : FundingAgencyRow :=
          { id := t.nextId, agencyName := name, agencyAcronym := acr
            agencyCountry := ctry, scopusAgencyId := scId }
        (.ok (some t.nextId),
         { l with
           conn := { l.conn with db := { l.conn.db with
             fundingAgencies := ⟨t.rows ++ [row], t.nextId + 1⟩ } } })
    else
      if !name.truthy then (.ok none, l)
      else
        let l := l.logOp .selectAgency
        match l.conn.db.fundingAgencies.rows.find?
            (fun r => r.agencyName == name && r.agencyCountry == ctry) with
        | some r => (.ok (some r.id), l)
        | none =>
          let l := l.logOp .insertAgency
          let t := l.conn.db.fundingAgencies
          let row : FundingAgencyRow :=
            { id := t.nextId, agencyName := name, agencyAcronym := acr
              agencyCountry := ctry, scopusAgencyId := .none }
          (.ok (some t.nextId),
           { l with
             conn := { l.conn with db := { l.conn.db with
               fundingAgencies := ⟨t.rows ++ [row], t.nextId + 1⟩ } } })

/-- `_link_funding`: skip when the agency is unresolved; null-safe
existence check on (paper, agency, grant), insert if absent. -/
def linkFunding (l : Loader) (pid : Nat) (agencyId : Option Nat)
    (gval : PyVal) : Loader :=
  match agencyId with
  | none => l
  | some aid =>
    let l := l.logOp .selectPaperFunding
    if l.conn.db.paperFunding.any
        (fun r => r.paperId == pid && r.agencyId == aid && r.grantId == gval)
    then l
    else
      let l := l.logOp .insertPaperFunding
      { l with
        conn := { l.conn with db := { l.conn.db with
          paperFunding := l.conn.db.paperFunding ++
            [{ paperId := pid, agencyId := aid, grantId := gval }] } } }

/-- The grant-id loop of `_insert_funding` for one funding entry. -/
def linkGrantIds (l : Loader) (pid : Nat) (agencyId : Option Nat) :
    List PyVal → Except Err Unit × Loader
  | [] => (.ok (), l)
  | g :: rest =>
    match (if g.isDict then pyGet g "$" .none else .ok g
           : Except Err PyVal) with
    | .error e => (.error e, l)
    | .ok gval => linkGrantIds (linkFunding l pid agencyId gval) pid agencyId rest

/-- One funding entry (`for f in sources or []`). -/
def processFundingEntries (l : Loader) (pid : Nat) :
    List PyVal → Except Err Unit × Loader
  | [] => (.ok (), l)
  | f :: rest =>
    match resolveFundingAgency l f with
    | (.error e, l') => (.error e, l')
    | (.ok agencyId, l') =>
      match (do
        let gids0 ← pyGet f "xocs:funding-id" (.list [])
        let gids1 := normToList gids0
        let gids := if !gids1.truthy then PyVal.list [.none] else gids1
        pyIter gids : Except Err (List PyVal)) with
      | .error e => (.error e, l')
      | .ok gids =>
        match linkGrantIds l' pid agencyId gids with
        | (.error e, l'') => (.error e, l'')
        | (.ok _, l'') => processFundingEntries l'' pid rest

/-- `_insert_funding` for one record. -/
def insertFunding (l : Loader) (data : PyVal) (pid : Nat) :
    Except Err Unit × Loader :=
  match (do
    let item ← pyGet data "item" (.dict [])
    let meta ← pyGet item "xocs:meta" (.dict [])
    let fundingList ← pyGet meta "xocs:funding-list" (.dict [])
    let srcs0 ← pyGet fundingList "xocs:funding" (.list [])
    pyIter (pyOr (normToList srcs0) (.list []))
    : Except Err (List PyVal)) with
  | .error e => (.error e, l)
  | .ok entries => processFundingEntries l pid entries

/-- The funding loop over `zip(json_list, paper_ids_ordered)` (row-wise
by design). -/
def processFundingRecords (l : Loader) :
    List (PyVal × Option Nat) → Except Err Unit × Loader
  | [] => (.ok (), l)
  | (data, pid) :: rest =>
    if !optTruthy pid then processFundingRecords l rest
    else
      match pid with
      | none => processFundingRecords l rest
      | some p =>
        match insertFunding l data p with
        | (.error e, l') => (.error e, l')
        | (.ok _, l') => processFundingRecords l' rest

/-- Key equality of `paper_author_affiliations`
(`ON CONFLICT (paper_author_id, affiliation_id)`). -/
def eqPaaKey (r v : PaperAuthorAffRow) : Bool :=
  r.paperAuthorId == v.paperAuthorId && r.affiliationId == v.affiliationId

/-- Key equality of `paper_keywords` (`ON CONFLICT (paper_id,
keyword_id)` — the type column is not part of the key). -/
def eqPkKey (r v : PaperKeywordRow) : Bool :=
  r.paperId == v.paperId && r.keywordId == v.keywordId

/-- Key equality of `paper_subject_areas`. -/
def eqPsKey (r v : PaperSubjectRow) : Bool :=
  r.paperId == v.paperId && r.subjectAreaId == v.subjectAreaId

/-- Key equality of `reference_papers` (`ON CONFLICT (paper_id,
reference_sequence)`). -/
def eqRefKey (r v : ReferenceRow) : Bool :=
  r.paperId == v.paperId && r.referenceSequence == v.referenceSequence

/-- The bulk `paper_author_affiliations` DO NOTHING statement (skipped
when there are no rows). -/
def paaInsertStep (l : Loader) (rows : List PaperAuthorAffRow) : Loader :=
  if rows.isEmpty then l
  else
    let l := l.logOp .bulkPaperAuthorAffs
    { l with conn := { l.conn with db := { l.conn.db with
        paperAuthorAffiliations :=
          bulkInsertIfAbsent eqPaaKey
            l.conn.db.paperAuthorAffiliations rows } } }

/-- The bulk `paper_keywords` DO NOTHING statement. -/
def pkInsertStep (l : Loader) (rows : List PaperKeywordRow) : Loader :=
  if rows.isEmpty then l
  else
    let l := l.logOp .bulkPaperKeywords
    { l with conn := { l.conn with db := { l.conn.db with
        paperKeywords :=
          bulkInsertIfAbsent eqPkKey l.conn.db.paperKeywords rows } } }

/-- The bulk `paper_subject_areas` DO NOTHING statement. -/
def psInsertStep (l : Loader) (rows : List PaperSubjectRow) : Loader :=
  if rows.isEmpty then l
  else
    let l := l.logOp .bulkPaperSubjects
    { l with conn := { l.conn with db := { l.conn.db with
        paperSubjectAreas :=
          bulkInsertIfAbsent eqPsKey l.conn.db.paperSubjectAreas rows } } }

/-- The bulk `reference_papers` DO NOTHING statement. -/
def refInsertStep (l : Loader) (rows : List ReferenceRow) : Loader :=
  if rows.isEmpty then l
  else
    let l := l.logOp .bulkReferences
    { l with conn := { l.conn with db := { l.conn.db with
        referencePapers :=
          bulkInsertIfAbsent eqRefKey l.conn.db.referencePapers rows } } }

/-- `_bulk_insert_papers_and_links`. -/
def bulkInsertPapersAndLinks (l : Loader) (pcb : Option ProgressCb)
    (jsonList : List PyVal) :
    Except Err (List (Option Nat)) × Loader :=
  let total := jsonList.length
  match gatherPaperRows pcb total l 1 jsonList with
  | (.error e, l) => (.error e, l)
  | (.ok (paperRows, scids), l) =>
    match bulkInsertPapersStep l paperRows with
    | (.error e, l) => (.error e, l)
    | (.ok pmap, l) =>
      match orderedIds pmap scids with
      | .error e => (.error e, l)
      | .ok pids =>
        let zipped := jsonList.zip pids
        match gatherAuthorsRecords l [] [] zipped with
        | (.error e, l) => (.error e, l)
        | (.ok (paRows, pending), l) =>
          match bulkPaperAuthorsStep l paRows with
          | (.error e, l) => (.error e, l)
          | (.ok pam, l) =>
            match buildPaaRows l.affCache pam pending with
            | .error e => (.error e, l)
            | .ok paaRows =>
              let l := paaInsertStep l paaRows
              match gatherKeywordLinks l [] zipped with
              | (.error e, l) => (.error e, l)
              | (.ok kwRows, l) =>
                let l := pkInsertStep l kwRows
                match gatherSubjectLinks l [] zipped with
                | (.error e, l) => (.error e, l)
                | (.ok subjRows, l) =>
                  let l := psInsertStep l subjRows
                  match gatherReferenceRows [] zipped with
                  | .error e => (.error e, l)
                  | .ok refRows =>
                    let l := refInsertStep l refRows
                    match processFundingRecords l zipped with
                    | (.error e, l) => (.error e, l)
                    | (.ok _, l) => (.ok pids, l)

/-! ### Public API (`insert_papers_batch`) -/

/-- `self.conn.commit()`. -/
def commitConn (l : Loader) : Loader :=
  { l with conn := { l.conn with committed := l.conn.db } }

/-- `self.conn.rollback()`: the session state reverts to the last
committed state. -/
def rollbackConn (l : Loader) : Loader :=
  { l with conn := { l.conn with db := l.conn.committed } }

/-- The body of the `try:` block of `insert_papers_batch`: extraction
(storage-free), then the bulk dimension upserts, then papers and
links. -/
def runPipeline (l : Loader) (jsonList : List PyVal)
    (pcb : Option ProgressCb) :
    Except Err (List (Option Nat)) × Loader :=
  match extractDimensionSets l.disableMetadataUpsert jsonList with
  | .error e => (.error e, l)
  | .ok ext =>
    match bulkUpsertDimensions l ext with
    | (.error e, l) => (.error e, l)
    | (.ok _, l) => bulkInsertPapersAndLinks l pcb jsonList

/-- `insert_papers_batch(json_list, commit, progress_callback)`: empty
batches return immediately; with an owned transaction (`_manage_tx` and
`commit`), success commits and any exception rolls back before
re-raising; otherwise neither happens. -/
def insertPapersBatch (l : Loader) (jsonList : List PyVal)
    (commit : Bool) (pcb : Option ProgressCb) :
    Except Err (List (Option Nat)) × Loader :=
  if jsonList.isEmpty then (.ok [], l)
  else
    let ownTx := l.manageTx && commit
    match runPipeline l jsonList pcb with
    | (.ok ids, l') => if ownTx then (.ok ids, commitConn l') else (.ok ids, l')
    | (.error e, l') =>
      if ownTx then (.error e, rollbackConn l') else (.error e, l')

/-! ### The pipeline never commits: `conn.committed` is write-protected -/

theorem logOp_committed (l : Loader) (op : DbOp) :
    (l.logOp op).conn.committed = l.conn.committed := rfl

theorem upsertSourcesStep_committed (l : Loader) (ext : Ext) :
    (upsertSourcesStep l ext).2.conn.committed = l.conn.committed := by
  simp only [upsertSourcesStep]
  split
  · split <;> rfl
  · rfl

theorem upsertAffiliationsStep_committed (l : Loader) (ext : Ext) :
    (upsertAffiliationsStep l ext).2.conn.committed = l.conn.committed := by
  simp only [upsertAffiliationsStep]
  split
  · split <;> rfl
  · rfl

theorem upsertAuthorsStep_committed (l : Loader) (ext : Ext) :
    (upsertAuthorsStep l ext).2.conn.committed = l.conn.committed := by
  simp only [upsertAuthorsStep]
  split
  · split <;> rfl
  · rfl

theorem upsertSubjectsStep_committed (l : Loader) (ext : Ext) :
    (upsertSubjectsStep l ext).2.conn.committed = l.conn.committed := by
  simp only [upsertSubjectsStep]
  split
  · split <;> rfl
  · rfl

theorem upsertKeywordsStep_committed (l : Loader) (ext : Ext) :
    (upsertKeywordsStep l ext).2.conn.committed = l.conn.committed := by
  simp only [upsertKeywordsStep]
  split
  · split <;> rfl
  · rfl

theorem bulkUpsertDimensions_committed (l : Loader) (ext : Ext) :
    (bulkUpsertDimensions l ext).2.conn.committed = l.conn.committed := by
  unfold bulkUpsertDimensions
  have h1 := upsertSourcesStep_committed l ext
  rcases hs : upsertSourcesStep l ext with ⟨r1, l1⟩
  rw [hs] at h1
  cases r1 with
  | error e => exact h1
  | ok u =>
    dsimp only
    have h2 := upsertAffiliationsStep_committed l1 ext
    rcases ha : upsertAffiliationsStep l1 ext with ⟨r2, l2⟩
    rw [ha] at h2
    cases r2 with
    | error e => exact h2.trans h1
    | ok u =>
      dsimp only
      have h3 := upsertAuthorsStep_committed l2 ext
      rcases hb : upsertAuthorsStep l2 ext with ⟨r3, l3⟩
      rw [hb] at h3
      cases r3 with
      | error e => exact (h3.trans h2).trans h1
      | ok u =>
        dsimp only
        have h4 := upsertSubjectsStep_committed l3 ext
        rcases hc : upsertSubjectsStep l3 ext with ⟨r4, l4⟩
        rw [hc] at h4
        cases r4 with
        | error e => exact ((h4.trans h3).trans h2).trans h1
        | ok u =>
          dsimp only
          exact (((upsertKeywordsStep_committed l4 ext).trans h4).trans
            h3).trans (h2.trans h1)

/-! ### Shape lemmas: each pipeline stage rewrites only its own fields -/

/-- Replace the sources table, source cache and trace. -/
def Loader.withSources (l : Loader) (t : Table SourceRow) (c : Cache)
    (tr : List DbOp) : Loader :=
  { l with
    conn := { l.conn with db := { l.conn.db with sources := t }, trace := tr }
    srcCache := c }

/-- Replace the authors table, author cache and trace. -/
def Loader.withAuthors (l : Loader) (t : Table AuthorRow) (c : Cache)
    (tr : List DbOp) : Loader :=
  { l with
    conn := { l.conn with db := { l.conn.db with authors := t }, trace := tr }
    authorCache := c }

/-- Replace the keywords table, keyword cache and trace. -/
def Loader.withKeywords (l : Loader) (t : Table KeywordRow) (c : Cache)
    (tr : List DbOp) : Loader :=
  { l with
    conn := { l.conn with db := { l.conn.db with keywords := t }, trace := tr }
    keywordCache := c }

/-- Replace the subject-areas table, subject cache and trace. -/
def Loader.withSubjects (l : Loader) (t : Table SubjectRow) (c : Cache)
    (tr : List DbOp) : Loader :=
  { l with
    conn := { l.conn with db := { l.conn.db with subjectAreas := t }, trace := tr }
    subjectCache := c }

/-- Replace the funding tables and trace. -/
def Loader.withFunding (l : Loader) (t : Table FundingAgencyRow)
    (pf : List PaperFundingRow) (tr : List DbOp) : Loader :=
  { l with
    conn := { l.conn with
      db := { l.conn.db with fundingAgencies := t, paperFunding := pf }
      trace := tr } }

/-- The loader changed in at most the sources table, source cache and
trace. -/
def SourcesShape (l l' : Loader) : Prop :=
  ∃ t c tr, l' = l.withSources t c tr

theorem SourcesShape.srcRefl (l : Loader) : SourcesShape l l :=
  ⟨l.conn.db.sources, l.srcCache, l.conn.trace, rfl⟩

theorem SourcesShape.srcTrans {l m n : Loader} (h1 : SourcesShape l m)
    (h2 : SourcesShape m n) : SourcesShape l n := by
  obtain ⟨t, c, tr, rfl⟩ := h1
  obtain ⟨t', c', tr', rfl⟩ := h2
  exact ⟨t', c', tr', rfl⟩

theorem resolveSourceId_shape (l : Loader) (data : PyVal) :
    SourcesShape l (resolveSourceId l data).2 := by
  simp only [resolveSourceId]
  split
  · exact SourcesShape.srcRefl l
  · split
    · exact SourcesShape.srcRefl l
    · exact SourcesShape.srcRefl l
    · split
      · exact SourcesShape.srcRefl l
      · split
        · exact ⟨_, _, _, rfl⟩
        · exact ⟨_, _, _, rfl⟩

theorem gatherPaperRows_shape (pcb : Option ProgressCb) (total : Nat) :
    ∀ (js : List PyVal) (l : Loader) (idx : Nat),
      SourcesShape l (gatherPaperRows pcb total l idx js).2 := by
  intro js
  induction js with
  | nil => intro l idx; exact SourcesShape.srcRefl l
  | cons data rest ih =>
    intro l idx
    unfold gatherPaperRows
    split
    · exact SourcesShape.srcRefl l
    · rcases hr : resolveSourceId l data with ⟨r, l'⟩
      have h1 := resolveSourceId_shape l data
      rw [hr] at h1; dsimp only at h1
      cases r with
      | error e => exact h1
      | ok sid =>
        dsimp only
        split
        · exact h1
        · have h2 := ih l' (idx + 1)
          rcases hg : gatherPaperRows pcb total l' (idx + 1) rest with ⟨r2, l''⟩
          rw [hg] at h2; dsimp only at h2
          cases r2 with
          | error e => exact h1.srcTrans h2
          | ok pr => exact h1.srcTrans h2

/-- Replace the papers table and trace. -/
def Loader.withPapers (l : Loader) (t : Table PaperRow) (tr : List DbOp) :
    Loader :=
  { l with
    conn := { l.conn with db := { l.conn.db with papers := t }, trace := tr } }

def PapersShape (l l' : Loader) : Prop := ∃ t tr, l' = l.withPapers t tr

theorem PapersShape.papRefl (l : Loader) : PapersShape l l :=
  ⟨l.conn.db.papers, l.conn.trace, rfl⟩

theorem bulkInsertPapersStep_shape (l : Loader) (rows : List PaperVals) :
    PapersShape l (bulkInsertPapersStep l rows).2 := by
  simp only [bulkInsertPapersStep]
  split
  · exact PapersShape.papRefl l
  · split
    · exact ⟨_, _, rfl⟩
    · split
      · exact ⟨_, _, rfl⟩
      · exact ⟨_, _, rfl⟩

def AuthorsShape (l l' : Loader) : Prop :=
  ∃ t c tr, l' = l.withAuthors t c tr

theorem AuthorsShape.auRefl (l : Loader) : AuthorsShape l l :=
  ⟨l.conn.db.authors, l.authorCache, l.conn.trace, rfl⟩

theorem AuthorsShape.auTrans {l m n : Loader} (h1 : AuthorsShape l m)
    (h2 : AuthorsShape m n) : AuthorsShape l n := by
  obtain ⟨t, c, tr, rfl⟩ := h1
  obtain ⟨t', c', tr', rfl⟩ := h2
  exact ⟨t', c', tr', rfl⟩

theorem resolveAuthorId_shape (l : Loader) (author auid : PyVal) :
    AuthorsShape l (resolveAuthorId l author auid).2 := by
  simp only [resolveAuthorId]
  split
  · exact AuthorsShape.auRefl l
  · exact AuthorsShape.auRefl l
  · split
    · exact AuthorsShape.auRefl l
    · exact ⟨_, _, _, rfl⟩

theorem gatherAuthorsOne_shape (pid : Nat) :
    ∀ (elems : List PyVal) (l : Loader) (paRows : List PaperAuthorVals)
      (pending : List (PyVal × Nat × Nat)),
      AuthorsShape l (gatherAuthorsOne l pid paRows pending elems).2 := by
  intro elems
  induction elems with
  | nil => intro l _ _; exact AuthorsShape.auRefl l
  | cons author rest ih =>
    intro l paRows pending
    unfold gatherAuthorsOne
    split
    · exact AuthorsShape.auRefl l
    next auid heqa =>
      split
      · exact ih l paRows pending
      · rcases hr : resolveAuthorId l author auid with ⟨r, l'⟩
        have h1 := resolveAuthorId_shape l author auid
        rw [hr] at h1; dsimp only at h1
        cases r with
        | error e => exact h1
        | ok aid =>
          dsimp only
          split
          · exact h1
          · exact h1.auTrans (ih l' _ _)

theorem gatherAuthorsRecords_shape :
    ∀ (zipped : List (PyVal × Option Nat)) (l : Loader)
      (paRows : List PaperAuthorVals) (pending : List (PyVal × Nat × Nat)),
      AuthorsShape l (gatherAuthorsRecords l paRows pending zipped).2 := by
  intro zipped
  induction zipped with
  | nil => intro l _ _; exact AuthorsShape.auRefl l
  | cons hd rest ih =>
    intro l paRows pending
    unfold gatherAuthorsRecords
    split
    · exact ih l paRows pending
    · split
      · exact ih l paRows pending
      next p heqp =>
        split
        · exact AuthorsShape.auRefl l
        next elems heqe =>
          rcases hg : gatherAuthorsOne l p paRows pending elems with ⟨r, l'⟩
          have h1 := gatherAuthorsOne_shape p elems l paRows pending
          rw [hg] at h1; dsimp only at h1
          cases r with
          | error e => exact h1
          | ok pr => exact h1.auTrans (ih l' _ _)

/-- Replace the paper-authors table and trace. -/
def Loader.withPaperAuthors (l : Loader) (t : Table PaperAuthorRow)
    (tr : List DbOp) : Loader :=
  { l with
    conn := { l.conn with
      db := { l.conn.db with paperAuthors := t }
      trace := tr } }

def PaperAuthorsShape (l l' : Loader) : Prop :=
  ∃ t tr, l' = l.withPaperAuthors t tr

theorem PaperAuthorsShape.paRefl (l : Loader) : PaperAuthorsShape l l :=
  ⟨l.conn.db.paperAuthors, l.conn.trace, rfl⟩

theorem bulkPaperAuthorsStep_shape (l : Loader)
    (rows : List PaperAuthorVals) :
    PaperAuthorsShape l (bulkPaperAuthorsStep l rows).2 := by
  simp only [bulkPaperAuthorsStep]
  split
  · exact PaperAuthorsShape.paRefl l
  · split
    · exact ⟨_, _, rfl⟩
    · exact ⟨_, _, rfl⟩

def KeywordsShape (l l' : Loader) : Prop :=
  ∃ t c tr, l' = l.withKeywords t c tr

theorem KeywordsShape.kwRefl (l : Loader) : KeywordsShape l l :=
  ⟨l.conn.db.keywords, l.keywordCache, l.conn.trace, rfl⟩

theorem KeywordsShape.kwTrans {l m n : Loader} (h1 : KeywordsShape l m)
    (h2 : KeywordsShape m n) : KeywordsShape l n := by
  obtain ⟨t, c, tr, rfl⟩ := h1
  obtain ⟨t', c', tr', rfl⟩ := h2
  exact ⟨t', c', tr', rfl⟩

theorem resolveKeywordId_shape (l : Loader) (val : PyVal) (kwType : String) :
    KeywordsShape l (resolveKeywordId l val kwType).2 := by
  simp only [resolveKeywordId]
  split
  · exact KeywordsShape.kwRefl l
  · exact KeywordsShape.kwRefl l
  · exact ⟨_, _, _, rfl⟩

theorem gatherKeywordList_shape (pid : Nat) (kwType : String) :
    ∀ (elems : List PyVal) (l : Loader) (rows : List PaperKeywordRow),
      KeywordsShape l (gatherKeywordList l pid kwType rows elems).2 := by
  intro elems
  induction elems with
  | nil => intro l _; exact KeywordsShape.kwRefl l
  | cons k rest ih =>
    intro l rows
    unfold gatherKeywordList
    split
    · exact KeywordsShape.kwRefl l
    next val heqv =>
      split
      · exact ih l rows
      · rcases hr : resolveKeywordId l val kwType with ⟨r, l'⟩
        have h1 := resolveKeywordId_shape l val kwType
        rw [hr] at h1; dsimp only at h1
        cases r with
        | error e => exact h1
        | ok kid => exact h1.kwTrans (ih l' _)

theorem gatherKeywordLinks_shape :
    ∀ (zipped : List (PyVal × Option Nat)) (l : Loader)
      (rows : List PaperKeywordRow),
      KeywordsShape l (gatherKeywordLinks l rows zipped).2 := by
  intro zipped
  induction zipped with
  | nil => intro l _; exact KeywordsShape.kwRefl l
  | cons hd rest ih =>
    intro l rows
    unfold gatherKeywordLinks
    split
    · exact ih l rows
    · split
      · exact ih l rows
      next p heqp =>
        split
        · exact KeywordsShape.kwRefl l
        next aElems heqa =>
          rcases hg : gatherKeywordList l p "author" rows aElems with ⟨r, l'⟩
          have h1 := gatherKeywordList_shape p "author" aElems l rows
          rw [hg] at h1; dsimp only at h1
          cases r with
          | error e => exact h1
          | ok rows' =>
            dsimp only
            split
            · exact h1
            next iElems heqi =>
              rcases hg2 : gatherKeywordList l' p "indexed" rows' iElems with ⟨r2, l''⟩
              have h2 := gatherKeywordList_shape p "indexed" iElems l' rows'
              rw [hg2] at h2; dsimp only at h2
              cases r2 with
              | error e => exact h1.kwTrans h2
              | ok rows'' => exact (h1.kwTrans h2).kwTrans (ih l'' _)

def SubjectsShape (l l' : Loader) : Prop :=
  ∃ t c tr, l' = l.withSubjects t c tr

theorem SubjectsShape.subjRefl (l : Loader) : SubjectsShape l l :=
  ⟨l.conn.db.subjectAreas, l.subjectCache, l.conn.trace, rfl⟩

theorem SubjectsShape.subjTrans {l m n : Loader} (h1 : SubjectsShape l m)
    (h2 : SubjectsShape m n) : SubjectsShape l n := by
  obtain ⟨t, c, tr, rfl⟩ := h1
  obtain ⟨t', c', tr', rfl⟩ := h2
  exact ⟨t', c', tr', rfl⟩

theorem resolveSubjectId_shape (l : Loader) (sa code : PyVal) :
    SubjectsShape l (resolveSubjectId l sa code).2 := by
  simp only [resolveSubjectId]
  split
  · exact SubjectsShape.subjRefl l
  · exact SubjectsShape.subjRefl l
  · split
    · exact SubjectsShape.subjRefl l
    · exact ⟨_, _, _, rfl⟩

theorem gatherSubjectList_shape (pid : Nat) :
    ∀ (elems : List PyVal) (l : Loader) (rows : List PaperSubjectRow),
      SubjectsShape l (gatherSubjectList l pid rows elems).2 := by
  intro elems
  induction elems with
  | nil => intro l _; exact SubjectsShape.subjRefl l
  | cons sa rest ih =>
    intro l rows
    unfold gatherSubjectList
    split
    · exact SubjectsShape.subjRefl l
    next code heqc =>
      split
      · exact ih l rows
      · rcases hr : resolveSubjectId l sa code with ⟨r, l'⟩
        have h1 := resolveSubjectId_shape l sa code
        rw [hr] at h1; dsimp only at h1
        cases r with
        | error e => exact h1
        | ok sid => exact h1.subjTrans (ih l' _)

theorem gatherSubjectLinks_shape :
    ∀ (zipped : List (PyVal × Option Nat)) (l : Loader)
      (rows : List PaperSubjectRow),
      SubjectsShape l (gatherSubjectLinks l rows zipped).2 := by
  intro zipped
  induction zipped with
  | nil => intro l _; exact SubjectsShape.subjRefl l
  | cons hd rest ih =>
    intro l rows
    unfold gatherSubjectLinks
    split
    · exact ih l rows
    · split
      · exact ih l rows
      next p heqp =>
        split
        · exact SubjectsShape.subjRefl l
        next elems heqe =>
          rcases hg : gatherSubjectList l p rows elems with ⟨r, l'⟩
          have h1 := gatherSubjectList_shape p elems l rows
          rw [hg] at h1; dsimp only at h1
          cases r with
          | error e => exact h1
          | ok rows' => exact h1.subjTrans (ih l' _)

def FundingShape (l l' : Loader) : Prop :=
  ∃ t pf tr, l' = l.withFunding t pf tr

theorem FundingShape.fundRefl (l : Loader) : FundingShape l l :=
  ⟨l.conn.db.fundingAgencies, l.conn.db.paperFunding, l.conn.trace, rfl⟩

theorem FundingShape.fundTrans {l m n : Loader} (h1 : FundingShape l m)
    (h2 : FundingShape m n) : FundingShape l n := by
  obtain ⟨t, pf, tr, rfl⟩ := h1
  obtain ⟨t', pf', tr', rfl⟩ := h2
  exact ⟨t', pf', tr', rfl⟩

theorem resolveFundingAgency_shape (l : Loader) (f : PyVal) :
    FundingShape l (resolveFundingAgency l f).2 := by
  simp only [resolveFundingAgency]
  split
  · exact FundingShape.fundRefl l
  · split
    · split
      · exact ⟨_, _, _, rfl⟩
      · exact ⟨_, _, _, rfl⟩
    · split
      · exact FundingShape.fundRefl l
      · split
        · exact ⟨_, _, _, rfl⟩
        · exact ⟨_, _, _, rfl⟩

theorem linkFunding_shape (l : Loader) (pid : Nat) (agencyId : Option Nat)
    (gval : PyVal) : FundingShape l (linkFunding l pid agencyId gval) := by
  simp only [linkFunding]
  split
  · exact FundingShape.fundRefl l
  · split
    · exact ⟨_, _, _, rfl⟩
    · exact ⟨_, _, _, rfl⟩

theorem linkGrantIds_shape (pid : Nat) (agencyId : Option Nat) :
    ∀ (gids : List PyVal) (l : Loader),
      FundingShape l (linkGrantIds l pid agencyId gids).2 := by
  intro gids
  induction gids with
  | nil => intro l; exact FundingShape.fundRefl l
  | cons g rest ih =>
    intro l
    unfold linkGrantIds
    split
    · exact FundingShape.fundRefl l
    · exact (linkFunding_shape l pid agencyId _).fundTrans (ih _)

theorem processFundingEntries_shape (pid : Nat) :
    ∀ (entries : List PyVal) (l : Loader),
      FundingShape l (processFundingEntries l pid entries).2 := by
  intro entries
  induction entries with
  | nil => intro l; exact FundingShape.fundRefl l
  | cons f rest ih =>
    intro l
    unfold processFundingEntries
    rcases hr : resolveFundingAgency l f with ⟨r, l'⟩
    have h1 := resolveFundingAgency_shape l f
    rw [hr] at h1; dsimp only at h1
    cases r with
    | error e => exact h1
    | ok agencyId =>
      dsimp only
      split
      · exact h1
      next gids heqg =>
        rcases hg : linkGrantIds l' pid agencyId gids with ⟨r2, l''⟩
        have h2 := linkGrantIds_shape pid agencyId gids l'
        rw [hg] at h2; dsimp only at h2
        cases r2 with
        | error e => exact h1.fundTrans h2
        | ok u => exact (h1.fundTrans h2).fundTrans (ih l'')

theorem insertFunding_shape (l : Loader) (data : PyVal) (pid : Nat) :
    FundingShape l (insertFunding l data pid).2 := by
  simp only [insertFunding]
  split
  · exact FundingShape.fundRefl l
  · exact processFundingEntries_shape pid _ l

theorem processFundingRecords_shape :
    ∀ (zipped : List (PyVal × Option Nat)) (l : Loader),
      FundingShape l (processFundingRecords l zipped).2 := by
  intro zipped
  induction zipped with
  | nil => intro l; exact FundingShape.fundRefl l
  | cons hd rest ih =>
    intro l
    unfold processFundingRecords
    split
    · exact ih l
    · split
      · exact ih l
      next p heqp =>
        rcases hr : insertFunding l hd.1 p with ⟨r, l'⟩
        have h1 := insertFunding_shape l hd.1 p
        rw [hr] at h1; dsimp only at h1
        cases r with
        | error e => exact h1
        | ok u => exact h1.fundTrans (ih l')

theorem SourcesShape.srcCommitted {l l' : Loader} (h : SourcesShape l l') :
    l'.conn.committed = l.conn.committed := by
  obtain ⟨t, c, tr, rfl⟩ := h; rfl

theorem PapersShape.papCommitted {l l' : Loader} (h : PapersShape l l') :
    l'.conn.committed = l.conn.committed := by
  obtain ⟨t, tr, rfl⟩ := h; rfl

theorem AuthorsShape.auCommitted {l l' : Loader} (h : AuthorsShape l l') :
    l'.conn.committed = l.conn.committed := by
  obtain ⟨t, c, tr, rfl⟩ := h; rfl

theorem PaperAuthorsShape.paCommitted {l l' : Loader}
    (h : PaperAuthorsShape l l') :
    l'.conn.committed = l.conn.committed := by
  obtain ⟨t, tr, rfl⟩ := h; rfl

theorem KeywordsShape.kwCommitted {l l' : Loader} (h : KeywordsShape l l') :
    l'.conn.committed = l.conn.committed := by
  obtain ⟨t, c, tr, rfl⟩ := h; rfl

theorem SubjectsShape.subjCommitted {l l' : Loader} (h : SubjectsShape l l') :
    l'.conn.committed = l.conn.committed := by
  obtain ⟨t, c, tr, rfl⟩ := h; rfl

theorem FundingShape.fundCommitted {l l' : Loader} (h : FundingShape l l') :
    l'.conn.committed = l.conn.committed := by
  obtain ⟨t, pf, tr, rfl⟩ := h; rfl

theorem paaInsertStep_committed (l : Loader) (rows : List PaperAuthorAffRow) :
    (paaInsertStep l rows).conn.committed = l.conn.committed := by
  simp only [paaInsertStep]; split <;> rfl

theorem pkInsertStep_committed (l : Loader) (rows : List PaperKeywordRow) :
    (pkInsertStep l rows).conn.committed = l.conn.committed := by
  simp only [pkInsertStep]; split <;> rfl

theorem psInsertStep_committed (l : Loader) (rows : List PaperSubjectRow) :
    (psInsertStep l rows).conn.committed = l.conn.committed := by
  simp only [psInsertStep]; split <;> rfl

theorem refInsertStep_committed (l : Loader) (rows : List ReferenceRow) :
    (refInsertStep l rows).conn.committed = l.conn.committed := by
  simp only [refInsertStep]; split <;> rfl

theorem bulkInsertPapersAndLinks_committed (l : Loader)
    (pcb : Option ProgressCb) (js : List PyVal) :
    (bulkInsertPapersAndLinks l pcb js).2.conn.committed =
      l.conn.committed := by
  unfold bulkInsertPapersAndLinks
  dsimp only
  rcases h1 : gatherPaperRows pcb js.length l 1 js with ⟨r1, l1⟩
  have s1 := (gatherPaperRows_shape pcb js.length js l 1).srcCommitted
  rw [h1] at s1; dsimp only at s1
  cases r1 with
  | error e => exact s1
  | ok pr =>
    rcases pr with ⟨paperRows, scids⟩
    dsimp only
    rcases h2 : bulkInsertPapersStep l1 paperRows with ⟨r2, l2⟩
    have s2 := (bulkInsertPapersStep_shape l1 paperRows).papCommitted
    rw [h2] at s2; dsimp only at s2
    cases r2 with
    | error e => exact s2.trans s1
    | ok pmap =>
      dsimp only
      rcases h3 : orderedIds pmap scids with e3 | pids
      · exact s2.trans s1
      · dsimp only
        rcases h4 : gatherAuthorsRecords l2 [] [] (js.zip pids) with ⟨r4, l4⟩
        have s4 := (gatherAuthorsRecords_shape (js.zip pids) l2 [] []).auCommitted
        rw [h4] at s4; dsimp only at s4
        cases r4 with
        | error e => exact (s4.trans s2).trans s1
        | ok pr4 =>
          rcases pr4 with ⟨paRows, pending⟩
          dsimp only
          rcases h5 : bulkPaperAuthorsStep l4 paRows with ⟨r5, l5⟩
          have s5 := (bulkPaperAuthorsStep_shape l4 paRows).paCommitted
          rw [h5] at s5; dsimp only at s5
          cases r5 with
          | error e => exact ((s5.trans s4).trans s2).trans s1
          | ok pam =>
            dsimp only
            rcases h6 : buildPaaRows l5.affCache pam pending with e6 | paaRows
            · exact ((s5.trans s4).trans s2).trans s1
            · dsimp only
              have acc1 : (paaInsertStep l5 paaRows).conn.committed =
                  l.conn.committed :=
                (paaInsertStep_committed l5 paaRows).trans
                  (((s5.trans s4).trans s2).trans s1)
              rcases h7 : gatherKeywordLinks (paaInsertStep l5 paaRows) []
                  (js.zip pids) with ⟨r7, l7⟩
              have s7 := (gatherKeywordLinks_shape (js.zip pids)
                (paaInsertStep l5 paaRows) []).kwCommitted
              rw [h7] at s7; dsimp only at s7
              cases r7 with
              | error e => exact s7.trans acc1
              | ok kwRows =>
                dsimp only
                have acc2 : (pkInsertStep l7 kwRows).conn.committed =
                    l.conn.committed :=
                  (pkInsertStep_committed l7 kwRows).trans (s7.trans acc1)
                rcases h8 : gatherSubjectLinks (pkInsertStep l7 kwRows) []
                    (js.zip pids) with ⟨r8, l8⟩
                have s8 := (gatherSubjectLinks_shape (js.zip pids)
                  (pkInsertStep l7 kwRows) []).subjCommitted
                rw [h8] at s8; dsimp only at s8
                cases r8 with
                | error e => exact s8.trans acc2
                | ok subjRows =>
                  dsimp only
                  have acc3 : (psInsertStep l8 subjRows).conn.committed =
                      l.conn.committed :=
                    (psInsertStep_committed l8 subjRows).trans (s8.trans acc2)
                  rcases h9 : gatherReferenceRows [] (js.zip pids) with e9 | refRows
                  · exact acc3
                  · dsimp only
                    have acc4 : (refInsertStep (psInsertStep l8 subjRows)
                        refRows).conn.committed = l.conn.committed :=
                      (refInsertStep_committed _ refRows).trans acc3
                    rcases h10 : processFundingRecords
                        (refInsertStep (psInsertStep l8 subjRows) refRows)
                        (js.zip pids) with ⟨r10, l10⟩
                    have s10 := (processFundingRecords_shape (js.zip pids)
                      (refInsertStep (psInsertStep l8 subjRows) refRows)).fundCommitted
                    rw [h10] at s10; dsimp only at s10
                    cases r10 with
                    | error e => exact s10.trans acc4
                    | ok u => exact s10.trans acc4

theorem runPipeline_committed (l : Loader) (js : List PyVal)
    (pcb : Option ProgressCb) :
    (runPipeline l js pcb).2.conn.committed = l.conn.committed := by
  unfold runPipeline
  rcases h1 : extractDimensionSets l.disableMetadataUpsert js with e1 | ext
  · rfl
  · dsimp only
    rcases h2 : bulkUpsertDimensions l ext with ⟨r2, l2⟩
    have s2 := bulkUpsertDimensions_committed l ext
    rw [h2] at s2; dsimp only at s2
    cases r2 with
    | error e => exact s2
    | ok u => exact (bulkInsertPapersAndLinks_committed l2 pcb js).trans s2

/-! ### The progress callback cannot influence the run -/

theorem isEmpty_false_of_ne {js : List PyVal} (h : js ≠ []) :
    js.isEmpty = false := by
  cases js with
  | nil => exact absurd rfl h
  | cons a as => rfl

/-- **C6.** In owned-connection mode (`ScopusDBLoader(conn_string=...)`),
`insert_papers_batch` with `commit=True` commits on success (the
committed state becomes the final session state) and rolls back on any
exception (the session state reverts to the state the connection was
opened on); in borrowed-connection mode (`ScopusDBLoader(conn=...)`),
the call returns exactly the raw pipeline result — no commit and no
rollback is issued, whatever the outcome — and the committed state of
the caller's connection is untouched. -/
theorem c6_transaction_modes :
    (∀ (shared : DB) (dis : Bool) (js : List PyVal) (pcb : Option ProgressCb)
       (ids : List (Option Nat)) (l' : Loader),
       runPipeline (mkOwnedLoader shared dis) js pcb = (.ok ids, l') →
       js ≠ [] →
       insertPapersBatch (mkOwnedLoader shared dis) js true pcb =
         (.ok ids, commitConn l') ∧
       (commitConn l').conn.committed = l'.conn.db) ∧
    (∀ (shared : DB) (dis : Bool) (js : List PyVal) (pcb : Option ProgressCb)
       (e : Err) (l' : Loader),
       runPipeline (mkOwnedLoader shared dis) js pcb = (.error e, l') →
       js ≠ [] →
       insertPapersBatch (mkOwnedLoader shared dis) js true pcb =
         (.error e, rollbackConn l') ∧
       (rollbackConn l').conn.db = shared) ∧
    (∀ (c : Conn) (dis : Bool) (js : List PyVal) (commit : Bool)
       (pcb : Option ProgressCb),
       js ≠ [] →
       insertPapersBatch (mkBorrowedLoader c dis) js commit pcb =
         runPipeline (mkBorrowedLoader c dis) js pcb ∧
       (insertPapersBatch
         (mkBorrowedLoader c dis) js commit pcb).2.conn.committed =
         c.committed) := by
  refine ⟨?_, ?_, ?_⟩
  · intro shared dis js pcb ids l' hrun hne
    refine ⟨?_, rfl⟩
    unfold insertPapersBatch
    rw [isEmpty_false_of_ne hne, hrun]
    rfl
  · intro shared dis js pcb e l' hrun hne
    constructor
    · unfold insertPapersBatch
      rw [isEmpty_false_of_ne hne, hrun]
      rfl
    · have h := runPipeline_committed (mkOwnedLoader shared dis) js pcb
      rw [hrun] at h
      exact h
  · intro c dis js commit pcb hne
    have heq : insertPapersBatch (mkBorrowedLoader c dis) js commit pcb =
        runPipeline (mkBorrowedLoader c dis) js pcb := by
      unfold insertPapersBatch
      rw [isEmpty_false_of_ne hne]
      rcases hr : runPipeline (mkBorrowedLoader c dis) js pcb with ⟨r, l'⟩
      cases r <;> rfl
    refine ⟨heq, ?_⟩
    rw [heq]
    exact runPipeline_committed (mkBorrowedLoader c dis) js pcb

/-- Witness for C6 at concrete inputs: a one-record batch commits on an
owned connection, a malformed batch rolls back, and a borrowed
connection is returned with its committed state untouched. -/
theorem c6_transaction_modes_witness :
    insertPapersBatch (mkOwnedLoader DB.empty false)
        [PyVal.dict [("coredata",
           PyVal.dict [("dc:identifier", PyVal.str "SID:1")])]] true none =
      (.ok [some 1],
       commitConn (runPipeline (mkOwnedLoader DB.empty false)
         [PyVal.dict [("coredata",
            PyVal.dict [("dc:identifier", PyVal.str "SID:1")])]] none).2) ∧
    insertPapersBatch (mkOwnedLoader DB.empty false) [PyVal.none] true none =
      (.error .attrError,
       rollbackConn (mkOwnedLoader DB.empty false)) ∧
    (insertPapersBatch (mkBorrowedLoader ⟨DB.empty, DB.empty, []⟩ false)
        [PyVal.none] true none).2.conn.committed = DB.empty := by
  refine ⟨?_, ?_, ?_⟩
  · exact (c6_transaction_modes.1 DB.empty false
      [PyVal.dict [("coredata",
         PyVal.dict [("dc:identifier", PyVal.str "SID:1")])]] none [some 1]
      (runPipeline (mkOwnedLoader DB.empty false)
        [PyVal.dict [("coredata",
           PyVal.dict [("dc:identifier", PyVal.str "SID:1")])]] none).2
      rfl (by intro h; cases h)).1
  · exact (c6_transaction_modes.2.1 DB.empty false [PyVal.none] none .attrError
      (runPipeline (mkOwnedLoader DB.empty false) [PyVal.none] none).2
      rfl (by intro h; cases h)).1
  · exact (c6_transaction_modes.2.2 ⟨DB.empty, DB.empty, []⟩ false [PyVal.none]
      true none (by intro h; cases h)).2

/-! ### Claim C1: the core-wrapper guard of extraction -/

/-- The value stored under a key of a dict, if any. -/
def fieldOf (d : PyVal) (k : String) : Option PyVal :=
  match d with
  | .dict fs => (fs.find? (fun kv => kv.1 == k)).map (fun kv => kv.2)
  | _ => none

/-- A natural-key value is usable: either falsy (the entity is skipped)
or hashable (so membership tests cannot raise). -/
def keyOk (v : PyVal) : Bool := !v.truthy || pyHashable v

/-- `keyOk` of an optional field. -/
def optKeyOk : Option PyVal → Bool
  | none => true
  | some v => keyOk v

/-- A record-level or author-level affiliation entry. -/
def affElemOk (e : PyVal) : Bool :=
  e.isDict && optKeyOk (fieldOf e "@id")

/-- An author entry. -/
def authorElemOk (e : PyVal) : Bool :=
  e.isDict && optKeyOk (fieldOf e "@auid") &&
    (match fieldOf e "preferred-name" with
     | some p => p.isDict
     | none => true)

/-- A subject-area entry. -/
def subjectElemOk (e : PyVal) : Bool :=
  e.isDict && optKeyOk (fieldOf e "@code")

/-- A keyword element (`author-keyword` or `idxterm` list member). -/
def kwElemOk (e : PyVal) : Bool :=
  if e.isDict then optKeyOk (fieldOf e "$") else keyOk e

/-- The value of an optional `author`/`subject-area` list: absent, falsy
or a list of well-shaped entries. -/
def entryListOk (elemOk : PyVal → Bool) : Option PyVal → Bool
  | none => true
  | some v => !v.truthy || (v.isList && v.asList.all elemOk)

/-- The value of `authkeywords.author-keyword`: a list of keyword
elements, or a single (falsy or well-shaped) element. -/
def kwFieldOk (v : PyVal) : Bool :=
  if v.isList then v.asList.all kwElemOk else !v.truthy || kwElemOk v

/-- The value of `idxterms.idxterm`: a list of keyword elements, a dict
(iterated over its string keys), a string, or something falsy. -/
def idxFieldOk : PyVal → Bool
  | .list xs => xs.all kwElemOk
  | .dict _ => true
  | .str _ => true
  | v => !v.truthy

/-- A record whose core wrapper is present (it is a dict) and whose
*present* optional groups have the shapes the extractor expects; any
subset of the optional fields may be missing.  `_extract_dimension_sets`
never raises on such a record. -/
def WellShapedRec (data : PyVal) : Bool :=
  data.isDict &&
  (match fieldOf data "coredata" with
   | some c => c.isDict
   | none => true) &&
  (lookupSourceInfo data).isDict &&
  optKeyOk (fieldOf (lookupSourceInfo data) "@srcid") &&
  (match fieldOf (lookupSourceInfo data) "issn" with
   | some (.list xs) => xs.all PyVal.isDict
   | _ => true) &&
  (match fieldOf data "affiliation" with
   | some (.dict fs) => affElemOk (.dict fs)
   | some (.list xs) => xs.all affElemOk
   | some _ => false
   | none => true) &&
  (match fieldOf data "authors" with
   | some a => a.isDict && entryListOk authorElemOk (fieldOf a "author")
   | none => true) &&
  (match fieldOf data "subject-areas" with
   | some a => a.isDict && entryListOk subjectElemOk (fieldOf a "subject-area")
   | none => true) &&
  (match fieldOf data "authkeywords" with
   | some a =>
     !a.truthy ||
       (a.isDict &&
        (match fieldOf a "author-keyword" with
         | some v => kwFieldOk v
         | none => true))
   | none => true) &&
  (match fieldOf data "idxterms" with
   | some a =>
     !a.truthy ||
       (a.isDict &&
        (match fieldOf a "idxterm" with
         | some v => idxFieldOk v
         | none => true))
   | none => true)

/-- The computation did not raise. -/
def ExceptOk (x : Except Err α) : Prop := ∃ a, x = .ok a

theorem pyGet_dict (d : PyVal) (k : String) (dv : PyVal)
    (h : d.isDict = true) : pyGet d k dv = .ok ((fieldOf d k).getD dv) := by
  cases d <;> simp_all [pyGet, fieldOf, PyVal.isDict]
  rcases List.find? _ _ with o | v <;> rfl

theorem scanIssn_ok (p e : PyVal) (xs : List PyVal)
    (hd : xs.all PyVal.isDict = true) : ExceptOk (scanIssn p e xs) := by
  induction xs generalizing p e with
  | nil => exact ⟨(p, e), rfl⟩
  | cons issn rest ih =>
    simp only [List.all_cons, Bool.and_eq_true] at hd
    unfold scanIssn
    rw [pyGet_dict _ _ _ hd.1]
    dsimp only [Bind.bind, Except.bind]
    split
    · rw [pyGet_dict _ _ _ hd.1]
      dsimp only [Bind.bind, Except.bind]
      exact ih _ _ hd.2
    · split
      · rw [pyGet_dict _ _ _ hd.1]
        dsimp only [Bind.bind, Except.bind]
        exact ih _ _ hd.2
      · exact ih _ _ hd.2

theorem keyOk_hashable {v : PyVal} (h : keyOk v = true)
    (ht : v.truthy = true) : pyHashable v = true := by
  simpa [keyOk, ht] using h

theorem optKeyOk_getD {o : Option PyVal} (h : optKeyOk o = true) :
    keyOk (o.getD PyVal.none) = true := by
  cases o with
  | none => rfl
  | some v => exact h

theorem emapHasE_ok (m : List (PyVal × α)) (k : PyVal)
    (h : pyHashable k = true) : emapHasE m k = .ok (emapHas m k) := by
  simp [emapHasE, h]

theorem extractAffsFold_ok (xs : List PyVal) :
    ∀ m, xs.all affElemOk = true → ExceptOk (extractAffsFold m xs) := by
  induction xs with
  | nil => intro m _; exact ⟨m, rfl⟩
  | cons aff rest ih =>
    intro m hall
    simp only [List.all_cons, Bool.and_eq_true] at hall
    obtain ⟨hok, hrest⟩ := hall
    simp only [affElemOk, Bool.and_eq_true] at hok
    obtain ⟨hdict, hkey⟩ := hok
    have hget := fun k dv => pyGet_dict aff k dv hdict
    unfold extractAffsFold
    simp only [hget, Bind.bind, Except.bind]
    split
    · next htr =>
      rw [emapHasE_ok _ _ (keyOk_hashable (optKeyOk_getD hkey) htr)]
      dsimp only
      split
      · exact ih _ hrest
      · exact ih _ hrest
    · exact ih _ hrest

theorem extractAuthorsFold_ok (xs : List PyVal) :
    ∀ m, xs.all authorElemOk = true → ExceptOk (extractAuthorsFold m xs) := by
  induction xs with
  | nil => intro m _; exact ⟨m, rfl⟩
  | cons author rest ih =>
    intro m hall
    simp only [List.all_cons, Bool.and_eq_true] at hall
    obtain ⟨hok, hrest⟩ := hall
    simp only [authorElemOk, Bool.and_eq_true] at hok
    obtain ⟨⟨hdict, hkey⟩, hpref⟩ := hok
    have hget := fun k dv => pyGet_dict author k dv hdict
    unfold extractAuthorsFold
    simp only [hget, Bind.bind, Except.bind]
    split
    · next htr =>
      rw [emapHasE_ok _ _ (keyOk_hashable (optKeyOk_getD hkey) htr)]
      dsimp only
      split
      · have hprefdict : ((fieldOf author "preferred-name").getD
            (PyVal.dict [])).isDict = true := by
          rcases hf : fieldOf author "preferred-name" with _ | p
          · rfl
          · rw [hf] at hpref; exact hpref
        rw [pyGet_dict _ _ _ hprefdict]
        dsimp only
        exact ih _ hrest
      · exact ih _ hrest
    · exact ih _ hrest

theorem extractSubjectsFold_ok (xs : List PyVal) :
    ∀ m, xs.all subjectElemOk = true → ExceptOk (extractSubjectsFold m xs) := by
  induction xs with
  | nil => intro m _; exact ⟨m, rfl⟩
  | cons sa rest ih =>
    intro m hall
    simp only [List.all_cons, Bool.and_eq_true] at hall
    obtain ⟨hok, hrest⟩ := hall
    simp only [subjectElemOk, Bool.and_eq_true] at hok
    obtain ⟨hdict, hkey⟩ := hok
    have hget := fun k dv => pyGet_dict sa k dv hdict
    unfold extractSubjectsFold
    simp only [hget, Bind.bind, Except.bind]
    split
    · next htr =>
      rw [emapHasE_ok _ _ (keyOk_hashable (optKeyOk_getD hkey) htr)]
      dsimp only
      split
      · exact ih _ hrest
      · exact ih _ hrest
    · exact ih _ hrest

theorem pySetAdd_ok (s : List PyVal) (v : PyVal) (h : pyHashable v = true) :
    ExceptOk (pySetAdd s v) := by
  cases v with
  | list xs => cases h
  | dict fs => cases h
  | none => simp only [pySetAdd]; split <;> exact ⟨_, rfl⟩
  | str a => simp only [pySetAdd]; split <;> exact ⟨_, rfl⟩
  | int a => simp only [pySetAdd]; split <;> exact ⟨_, rfl⟩
  | bool a => simp only [pySetAdd]; split <;> exact ⟨_, rfl⟩

/-- On a well-shaped element, the `val` computed by the keyword loops is
obtained without raising and is a usable key. -/
theorem kwElemVal_ok (k : PyVal) (hok : kwElemOk k = true) :
    ∃ val, kwVal k = .ok val ∧ keyOk val = true := by
  unfold kwVal
  by_cases hd : k.isDict = true
  · have hor : (pyOr k (.dict [])).isDict = true := by
      simp only [pyOr]; split
      · exact hd
      · rfl
    refine ⟨(fieldOf (pyOr k (.dict [])) "$").getD .none,
      by rw [if_pos hd, pyGet_dict _ _ _ hor], ?_⟩
    rw [kwElemOk, if_pos hd] at hok
    simp only [pyOr]
    split
    · exact optKeyOk_getD hok
    · next ht =>
      cases k with
      | dict fs =>
        have : fieldOf (PyVal.dict []) "$" = none := rfl
        rw [this]
        rfl
      | none => cases hd
      | str a => cases hd
      | int a => cases hd
      | bool a => cases hd
      | list a => cases hd
  · refine ⟨k, by rw [if_neg hd]; rfl, ?_⟩
    rw [kwElemOk, if_neg hd] at hok
    exact hok

theorem addKeywordVals_ok (xs : List PyVal) :
    ∀ s, xs.all kwElemOk = true → ExceptOk (addKeywordVals s xs) := by
  induction xs with
  | nil => intro s _; exact ⟨s, rfl⟩
  | cons k rest ih =>
    intro s hall
    simp only [List.all_cons, Bool.and_eq_true] at hall
    obtain ⟨hok, hrest⟩ := hall
    obtain ⟨val, hv, hkv⟩ := kwElemVal_ok k hok
    unfold addKeywordVals
    rw [hv]
    dsimp only [Bind.bind, Except.bind]
    split
    · next ht =>
      obtain ⟨s', hs⟩ := pySetAdd_ok s val (keyOk_hashable hkv ht)
      rw [hs]
      dsimp only
      exact ih _ hrest
    · exact ih _ hrest

theorem extractSourcesSection_ok (acc : Ext) (data core : PyVal)
    (hcore : core.isDict = true)
    (hsi : (lookupSourceInfo data).isDict = true)
    (hsrck : optKeyOk (fieldOf (lookupSourceInfo data) "@srcid") = true)
    (hissn : (match fieldOf (lookupSourceInfo data) "issn" with
      | some (.list xs) => xs.all PyVal.isDict
      | _ => true) = true) :
    ExceptOk (extractSourcesSection acc data core) := by
  unfold extractSourcesSection
  split
  · exact ⟨acc, rfl⟩
  · have hgetsi := fun k dv => pyGet_dict (lookupSourceInfo data) k dv hsi
    have hgetc := fun k dv => pyGet_dict core k dv hcore
    simp only [hgetsi, hgetc, Bind.bind, Except.bind]
    split
    · next htr =>
      rw [emapHasE_ok _ _ (keyOk_hashable (optKeyOk_getD hsrck) htr)]
      dsimp only
      split
      · split
        · next hlist =>
          have hall : ((fieldOf (lookupSourceInfo data) "issn").getD
              (PyVal.list [])).asList.all PyVal.isDict = true := by
            rcases hf : fieldOf (lookupSourceInfo data) "issn" with _ | v
            · rfl
            · rw [hf] at hissn
              cases v <;> simp_all [PyVal.asList, PyVal.isList]
          obtain ⟨⟨p, e⟩, hscan⟩ := scanIssn_ok .none .none _ hall
          rw [hscan]
          exact ⟨_, rfl⟩
        · exact ⟨_, rfl⟩
      · exact ⟨acc, rfl⟩
    · exact ⟨acc, rfl⟩

/-- Iterating the (normalized) affiliation value of a well-shaped
record yields well-shaped entries. -/
theorem affIter_ok (o : Option PyVal)
    (haff : (match o with
      | some (.dict fs) => affElemOk (.dict fs)
      | some (.list xs) => xs.all affElemOk
      | some _ => false
      | none => true) = true) :
    ∃ xs, pyIter (normToList (o.getD (PyVal.list []))) = .ok xs ∧
      xs.all affElemOk = true := by
  rcases o with _ | v
  · exact ⟨[], rfl, rfl⟩
  · cases v with
    | dict fs =>
      simp only [Option.getD, normToList]
      split
    -- a truthy dict becomes a one-element list; a falsy dict iterates
    -- over its (empty) key set
      · exact ⟨[.dict fs], rfl, by simpa [List.all] using haff⟩
      · next hft =>
        refine ⟨_, rfl, ?_⟩
        have hfs : fs = [] := by
          simp only [Bool.and_eq_true, PyVal.truthy, PyVal.isList] at hft
          rcases fs with _ | ⟨a, b⟩
          · rfl
          · simp at hft
        rw [hfs]; rfl
    | list xs =>
      simp only [Option.getD, normToList, PyVal.isList]
      simp only [Bool.not_true, Bool.and_false, if_false]
      exact ⟨xs, rfl, haff⟩
    | none => cases haff
    | str a => cases haff
    | int a => cases haff
    | bool a => cases haff

theorem extractAffsSection_ok (acc : Ext) (data : PyVal)
    (hdict : data.isDict = true)
    (haff : (match fieldOf data "affiliation" with
      | some (.dict fs) => affElemOk (.dict fs)
      | some (.list xs) => xs.all affElemOk
      | some _ => false
      | none => true) = true) :
    ExceptOk (extractAffsSection acc data) := by
  unfold extractAffsSection
  split
  · exact ⟨acc, rfl⟩
  · rw [pyGet_dict _ _ _ hdict]
    dsimp only [Bind.bind, Except.bind]
    obtain ⟨xs, hiter, hall⟩ := affIter_ok (fieldOf data "affiliation") haff
    rw [hiter]
    dsimp only
    obtain ⟨m', hm⟩ := extractAffsFold_ok xs acc.affiliations hall
    rw [hm]
    exact ⟨_, rfl⟩

/-- Iterating an optional entry list (`authors.author` /
`subject-areas.subject-area`) of a well-shaped record. -/
theorem entryIter_ok (elemOk : PyVal → Bool) (o : Option PyVal)
    (h : entryListOk elemOk o = true) :
    ∃ xs, pyIter (pyOr (o.getD (PyVal.list [])) (PyVal.list [])) = .ok xs ∧
      xs.all elemOk = true := by
  rcases o with _ | v
  · exact ⟨[], rfl, rfl⟩
  · simp only [entryListOk, Bool.or_eq_true, Bool.and_eq_true] at h
    rcases h with h | ⟨hl, hall⟩
    · simp only [Option.getD, pyOr]
      rw [if_neg (by simp_all)]
      exact ⟨[], rfl, rfl⟩
    · cases v with
      | list xs =>
        simp only [Option.getD, pyOr]
        split
        · exact ⟨xs, rfl, hall⟩
        · exact ⟨[], rfl, rfl⟩
      | dict fs => cases hl
      | none => cases hl
      | str a => cases hl
      | int a => cases hl
      | bool a => cases hl

theorem extractAuthorsSection_ok (acc : Ext) (data : PyVal)
    (hdict : data.isDict = true)
    (hauth : (match fieldOf data "authors" with
      | some a => a.isDict && entryListOk authorElemOk (fieldOf a "author")
      | none => true) = true) :
    ExceptOk (extractAuthorsSection acc data) := by
  unfold extractAuthorsSection
  rw [pyGet_dict _ _ _ hdict]
  dsimp only [Bind.bind, Except.bind]
  have hobj : ((fieldOf data "authors").getD (PyVal.dict [])).isDict = true ∧
      entryListOk authorElemOk
        (fieldOf ((fieldOf data "authors").getD (PyVal.dict []))
          "author") = true := by
    rcases hf : fieldOf data "authors" with _ | a
    · exact ⟨rfl, rfl⟩
    · rw [hf] at hauth
      simp only [Bool.and_eq_true] at hauth
      exact ⟨hauth.1, hauth.2⟩
  rw [pyGet_dict _ _ _ hobj.1]
  dsimp only
  obtain ⟨xs, hiter, hall⟩ := entryIter_ok authorElemOk _ hobj.2
  rw [hiter]
  dsimp only
  obtain ⟨m', hm⟩ := extractAuthorsFold_ok xs acc.authors hall
  rw [hm]
  exact ⟨_, rfl⟩

theorem extractSubjectsSection_ok (acc : Ext) (data : PyVal)
    (hdict : data.isDict = true)
    (hsub : (match fieldOf data "subject-areas" with
      | some a => a.isDict && entryListOk subjectElemOk (fieldOf a "subject-area")
      | none => true) = true) :
    ExceptOk (extractSubjectsSection acc data) := by
  unfold extractSubjectsSection
  rw [pyGet_dict _ _ _ hdict]
  dsimp only [Bind.bind, Except.bind]
  have hobj : ((fieldOf data "subject-areas").getD (PyVal.dict [])).isDict = true ∧
      entryListOk subjectElemOk
        (fieldOf ((fieldOf data "subject-areas").getD (PyVal.dict []))
          "subject-area") = true := by
    rcases hf : fieldOf data "subject-areas" with _ | a
    · exact ⟨rfl, rfl⟩
    · rw [hf] at hsub
      simp only [Bool.and_eq_true] at hsub
      exact ⟨hsub.1, hsub.2⟩
  rw [pyGet_dict _ _ _ hobj.1]
  dsimp only
  obtain ⟨xs, hiter, hall⟩ := entryIter_ok subjectElemOk _ hobj.2
  rw [hiter]
  dsimp only
  obtain ⟨m', hm⟩ := extractSubjectsFold_ok xs acc.subjects hall
  rw [hm]
  exact ⟨_, rfl⟩

/-- Iterating the author-keyword value after `or []` and list
normalization. -/
theorem kwIter_ok (v : PyVal) (h : kwFieldOk v = true) :
    ∃ xs, pyIter (if !(pyOr v (PyVal.list [])).isList
        then PyVal.list [pyOr v (PyVal.list [])]
        else pyOr v (PyVal.list [])) = .ok xs ∧
      xs.all kwElemOk = true := by
  by_cases ht : v.truthy = true
  · simp only [pyOr, if_pos ht]
    by_cases hl : v.isList = true
    · rw [if_neg (by simp [hl])]
      cases v with
      | list xs => exact ⟨xs, rfl, by simpa [kwFieldOk, PyVal.isList] using h⟩
      | dict fs => cases hl
      | none => cases hl
      | str a => cases hl
      | int a => cases hl
      | bool a => cases hl
    · rw [if_pos (by simp [hl])]
      refine ⟨[v], rfl, ?_⟩
      simp only [kwFieldOk, hl, if_false] at h
      simp only [List.all_cons, List.all_nil, Bool.and_true]
      rcases Bool.or_eq_true_iff.mp h with h' | h'
      · rw [ht] at h'; cases h'
      · exact h'
  · simp only [pyOr, if_neg ht]
    rw [if_neg (by simp [PyVal.isList])]
    exact ⟨[], rfl, rfl⟩

theorem extractAuthKwSection_ok (acc : Ext) (data : PyVal)
    (hdict : data.isDict = true)
    (hak : (match fieldOf data "authkeywords" with
      | some a =>
        !a.truthy ||
          (a.isDict &&
           (match fieldOf a "author-keyword" with
            | some v => kwFieldOk v
            | none => true))
      | none => true) = true) :
    ExceptOk (extractAuthKwSection acc data) := by
  unfold extractAuthKwSection
  rw [pyGet_dict _ _ _ hdict]
  dsimp only [Bind.bind, Except.bind]
  split
  · next htr =>
    have hk : ((fieldOf data "authkeywords").getD (PyVal.dict [])).isDict = true ∧
        kwFieldOk ((fieldOf ((fieldOf data "authkeywords").getD (PyVal.dict []))
          "author-keyword").getD (PyVal.list [])) = true := by
      rcases hf : fieldOf data "authkeywords" with _ | a
      · rw [hf] at htr; cases htr
      · rw [hf] at hak htr
        simp only [Option.getD] at htr ⊢
        rcases Bool.or_eq_true_iff.mp hak with h' | h'
        · rw [htr] at h'; cases h'
        · simp only [Bool.and_eq_true] at h'
          obtain ⟨had, hfield⟩ := h'
          refine ⟨had, ?_⟩
          rcases hf2 : fieldOf a "author-keyword" with _ | v
          · rfl
          · rw [hf2] at hfield; exact hfield
    rw [pyGet_dict _ _ _ hk.1]
    dsimp only
    obtain ⟨xs, hiter, hall⟩ := kwIter_ok _ hk.2
    rw [hiter]
    dsimp only
    obtain ⟨s', hs⟩ := addKeywordVals_ok xs acc.keywordsAuthor hall
    rw [hs]
    exact ⟨_, rfl⟩
  · exact ⟨acc, rfl⟩

/-- Iterating the (unnormalized) idxterm value after `or []`. -/
theorem idxIter_ok (v : PyVal) (h : idxFieldOk v = true) :
    ∃ xs, pyIter (pyOr v (PyVal.list [])) = .ok xs ∧
      xs.all kwElemOk = true := by
  cases v with
  | list xs =>
    simp only [pyOr]
    split <;> first
      | exact ⟨xs, rfl, by simpa [idxFieldOk] using h⟩
      | exact ⟨[], rfl, rfl⟩
  | dict fs =>
    simp only [pyOr]
    split
    · refine ⟨_, rfl, ?_⟩
      rw [List.all_eq_true]
      intro x hx
      obtain ⟨kv, hkv, rfl⟩ := List.mem_map.mp hx
      simp [kwElemOk, keyOk, pyHashable, PyVal.isDict]
    · exact ⟨[], rfl, rfl⟩
  | str a =>
    simp only [pyOr]
    split
    · refine ⟨_, rfl, ?_⟩
      rw [List.all_eq_true]
      intro x hx
      obtain ⟨c, hc, rfl⟩ := List.mem_map.mp hx
      simp [kwElemOk, keyOk, pyHashable, PyVal.isDict]
    · exact ⟨[], rfl, rfl⟩
  | none => exact ⟨[], rfl, rfl⟩
  | int n =>
    have h' : (PyVal.int n).truthy = false := by
      have h2 : (!(PyVal.int n).truthy) = true := h
      simpa using h2
    simp only [pyOr, h']
    exact ⟨[], rfl, rfl⟩
  | bool b =>
    have h' : (PyVal.bool b).truthy = false := by
      have h2 : (!(PyVal.bool b).truthy) = true := h
      simpa using h2
    simp only [pyOr, h']
    exact ⟨[], rfl, rfl⟩

theorem extractIdxKwSection_ok (acc : Ext) (data : PyVal)
    (hdict : data.isDict = true)
    (hidx : (match fieldOf data "idxterms" with
      | some a =>
        !a.truthy ||
          (a.isDict &&
           (match fieldOf a "idxterm" with
            | some v => idxFieldOk v
            | none => true))
      | none => true) = true) :
    ExceptOk (extractIdxKwSection acc data) := by
  unfold extractIdxKwSection
  rw [pyGet_dict _ _ _ hdict]
  dsimp only [Bind.bind, Except.bind]
  split
  · next htr =>
    have hk : ((fieldOf data "idxterms").getD (PyVal.dict [])).isDict = true ∧
        idxFieldOk ((fieldOf ((fieldOf data "idxterms").getD (PyVal.dict []))
          "idxterm").getD (PyVal.list [])) = true := by
      rcases hf : fieldOf data "idxterms" with _ | a
      · rw [hf] at htr; cases htr
      · rw [hf] at hidx htr
        simp only [Option.getD] at htr ⊢
        rcases Bool.or_eq_true_iff.mp hidx with h' | h'
        · rw [htr] at h'; cases h'
        · simp only [Bool.and_eq_true] at h'
          obtain ⟨had, hfield⟩ := h'
          refine ⟨had, ?_⟩
          rcases hf2 : fieldOf a "idxterm" with _ | v
          · rfl
          · rw [hf2] at hfield; exact hfield
    rw [pyGet_dict _ _ _ hk.1]
    dsimp only
    obtain ⟨xs, hiter, hall⟩ := idxIter_ok _ hk.2
    rw [hiter]
    dsimp only
    obtain ⟨s', hs⟩ := addKeywordVals_ok xs acc.keywordsIndexed hall
    rw [hs]
    exact ⟨_, rfl⟩
  · exact ⟨acc, rfl⟩

/-- On a well-shaped record, `_extract_dimension_sets`'s per-record body
never raises. -/
theorem extractRecord_ok (acc : Ext) (data : PyVal)
    (h : WellShapedRec data = true) : ExceptOk (extractRecord acc data) := by
  simp only [WellShapedRec, Bool.and_eq_true] at h
  obtain ⟨⟨⟨⟨⟨⟨⟨⟨⟨hdict, hcore⟩, hsi⟩, hsrck⟩, hissn⟩, haff⟩, hauth⟩, hsub⟩,
    hak⟩, hidx⟩ := h
  have hcored : ((fieldOf data "coredata").getD (PyVal.dict [])).isDict
      = true := by
    rcases hf : fieldOf data "coredata" with _ | c
    · rfl
    · rw [hf] at hcore; exact hcore
  unfold extractRecord
  rw [pyGet_dict _ _ _ hdict]
  dsimp only [Bind.bind, Except.bind]
  obtain ⟨a1, h1⟩ := extractSourcesSection_ok acc data _ hcored hsi hsrck hissn
  rw [h1]; dsimp only
  obtain ⟨a2, h2⟩ := extractAffsSection_ok a1 data hdict haff
  rw [h2]; dsimp only
  obtain ⟨a3, h3⟩ := extractAuthorsSection_ok a2 data hdict hauth
  rw [h3]; dsimp only
  obtain ⟨a4, h4⟩ := extractSubjectsSection_ok a3 data hdict hsub
  rw [h4]; dsimp only
  obtain ⟨a5, h5⟩ := extractAuthKwSection_ok a4 data hdict hak
  rw [h5]; dsimp only
  obtain ⟨a6, h6⟩ := extractIdxKwSection_ok a5 data hdict hidx
  rw [h6]
  exact ⟨a6, rfl⟩

/-- A record that is not a dict — the 'abstracts-retrieval-response'
wrapper is absent — makes the per-record extraction body raise at its
first attribute access. -/
theorem extractRecord_nondict (acc : Ext) (data : PyVal)
    (h : data.isDict = false) :
    extractRecord acc data = .error .attrError := by
  unfold extractRecord
  cases data <;> simp_all [pyGet, PyVal.isDict, Bind.bind, Except.bind]

/-- A batch containing a record without its core wrapper makes
extraction fail. -/
theorem extractDimensionSets_malformed (dis : Bool) (js : List PyVal)
    (h : ∃ d ∈ js, d.isDict = false) :
    ∃ e, extractDimensionSets dis js = .error e := by
  unfold extractDimensionSets
  generalize { sources := [], affiliations := [], authors := []
               subjects := [], keywordsAuthor := [], keywordsIndexed := []
               skipSrcAff := dis : Ext } = acc
  induction js generalizing acc with
  | nil => obtain ⟨d, hd, _⟩ := h; cases hd
  | cons data rest ih =>
    unfold extractDimensionSets.go
    rcases hx : extractRecord acc data with e | acc'
    · exact ⟨e, rfl⟩
    · dsimp only [Bind.bind, Except.bind]
      obtain ⟨d, hd, hnd⟩ := h
      rcases List.mem_cons.mp hd with rfl | hmem
      · rw [extractRecord_nondict acc d hnd] at hx; cases hx
      · exact ih ⟨d, hmem, hnd⟩ acc'

/-- With all records well-shaped, extraction succeeds on the whole
batch. -/
theorem extractDimensionSets_ok (dis : Bool) (js : List PyVal)
    (h : ∀ d ∈ js, WellShapedRec d = true) :
    ExceptOk (extractDimensionSets dis js) := by
  unfold extractDimensionSets
  generalize { sources := [], affiliations := [], authors := []
               subjects := [], keywordsAuthor := [], keywordsIndexed := []
               skipSrcAff := dis : Ext } = acc
  induction js generalizing acc with
  | nil => exact ⟨acc, rfl⟩
  | cons data rest ih =>
    unfold extractDimensionSets.go
    obtain ⟨acc', hx⟩ := extractRecord_ok acc data (h data (.head rest))
    rw [hx]
    dsimp only [Bind.bind, Except.bind]
    exact ih (fun d hd => h d (.tail data hd)) acc'

/-- **C1.** A record whose core wrapper is absent (the record is not the
'abstracts-retrieval-response' dict the loader's contract requires)
makes extraction fail fast, aborting the whole batch before any write:
`insert_papers_batch` raises and the session state is either exactly
the state the loader started from or (owned-transaction mode, after
rollback) the last committed state — in particular no `papers` row of
the batch is written.  Conversely, for batches of well-shaped records —
records whose optional groups may be missing in any combination —
extraction, a pure function of the records that never touches storage,
never raises. -/
theorem c1_core_wrapper_guard :
    (∀ (l : Loader) (js : List PyVal) (commit : Bool)
       (pcb : Option ProgressCb),
       (∃ d ∈ js, d.isDict = false) →
       (∃ e, (insertPapersBatch l js commit pcb).1 = .error e) ∧
       ((insertPapersBatch l js commit pcb).2.conn.db = l.conn.db ∨
        (insertPapersBatch l js commit pcb).2.conn.db = l.conn.committed)) ∧
    (∀ (dis : Bool) (js : List PyVal),
       (∀ d ∈ js, WellShapedRec d = true) →
       ∃ ext, extractDimensionSets dis js = .ok ext) := by
  constructor
  · intro l js commit pcb hmal
    obtain ⟨e, hext⟩ := extractDimensionSets_malformed
      l.disableMetadataUpsert js hmal
    have hne : js.isEmpty = false := by
      obtain ⟨d, hd, _⟩ := hmal
      cases js with
      | nil => cases hd
      | cons a as => rfl
    have hrun : runPipeline l js pcb = (.error e, l) := by
      unfold runPipeline
      rw [hext]
    unfold insertPapersBatch
    rw [hne, hrun]
    dsimp only
    rcases hmt : l.manageTx && commit with _ | _
    · refine ⟨⟨e, ?_⟩, .inl ?_⟩ <;> simp
    · refine ⟨⟨e, ?_⟩, .inr ?_⟩ <;> simp [rollbackConn]
  · exact extractDimensionSets_ok

/-- Witness for C1: a batch whose record is `null` aborts with the
session database untouched, and a record with every optional group
missing extracts cleanly. -/
theorem c1_core_wrapper_guard_witness :
    ((∃ e, (insertPapersBatch (mkOwnedLoader DB.empty false) [PyVal.none]
        true none).1 = .error e) ∧
     ((insertPapersBatch (mkOwnedLoader DB.empty false) [PyVal.none]
        true none).2.conn.db = DB.empty ∨
      (insertPapersBatch (mkOwnedLoader DB.empty false) [PyVal.none]
        true none).2.conn.db = DB.empty)) ∧
    (∃ ext, extractDimensionSets false [PyVal.dict []] = .ok ext) := by
  constructor
  · exact c1_core_wrapper_guard.1 (mkOwnedLoader DB.empty false) [PyVal.none]
      true none ⟨PyVal.none, List.mem_singleton.mpr rfl, rfl⟩
  · exact c1_core_wrapper_guard.2 false [PyVal.dict []]
      (by intro d hd; rw [List.mem_singleton.mp hd]; rfl)

/-! ### Generic facts about the upsert machinery -/

theorem updateFirst_eq_none {p : ρ → Bool} {f : ρ → ρ} :
    ∀ {rows rows' : List ρ}, updateFirst p f rows = (none, rows') →
      rows' = rows ∧ ∀ r ∈ rows, p r = false := by
  intro rows
  induction rows with
  | nil =>
    intro rows' h
    simp only [updateFirst] at h
    cases h
    exact ⟨rfl, by intro r hr; cases hr⟩
  | cons r rs ih =>
    intro rows' h
    simp only [updateFirst] at h
    split at h
    · cases h
    · next hp =>
      rcases hu : updateFirst p f rs with ⟨o, rs'⟩
      rw [hu] at h
      dsimp only at h
      cases h
      obtain ⟨heq, hall⟩ := ih hu
      refine ⟨by rw [heq], ?_⟩
      intro x hx
      rcases List.mem_cons.mp hx with rfl | hx
      · simpa using hp
      · exact hall x hx

theorem updateFirst_eq_some {p : ρ → Bool} {f : ρ → ρ} :
    ∀ {rows rows' : List ρ} {r' : ρ},
      updateFirst p f rows = (some r', rows') →
      ∃ pre r0 post, rows = pre ++ r0 :: post ∧
        (∀ r ∈ pre, p r = false) ∧ p r0 = true ∧ r' = f r0 ∧
        rows' = pre ++ f r0 :: post := by
  intro rows
  induction rows with
  | nil => intro rows' r' h; simp only [updateFirst] at h; cases h
  | cons r rs ih =>
    intro rows' r' h
    simp only [updateFirst] at h
    split at h
    · next hp =>
      cases h
      exact ⟨[], r, rs, rfl, (by intro x hx; cases hx), hp, rfl, rfl⟩
    · next hp =>
      rcases hu : updateFirst p f rs with ⟨o, rs'⟩
      rw [hu] at h
      dsimp only at h
      cases h
      obtain ⟨pre, r0, post, hrows, hpre, hp0, hr', hrs'⟩ := ih hu
      refine ⟨r :: pre, r0, post, (by rw [hrows]; rfl), ?_, hp0, hr',
        (by rw [hrs']; rfl)⟩
      intro x hx
      rcases List.mem_cons.mp hx with rfl | hx
      · simpa using hp
      · exact hpre x hx

/-- Case analysis for a single upsert: either it updated the first
conflicting stored row, or it appended a freshly created row. -/
theorem upsertOne_cases (S : UpsertSpec υ ρ α) (t : Table ρ) (v : υ) :
    (∃ pre r0 post, t.rows = pre ++ r0 :: post ∧
      (∀ r ∈ pre, S.conflict v r = false) ∧ S.conflict v r0 = true ∧
      upsertOne S t v =
        (S.out (S.merge v r0),
         { t with rows := pre ++ S.merge v r0 :: post })) ∨
    ((∀ r ∈ t.rows, S.conflict v r = false) ∧
      upsertOne S t v =
        (S.out (S.create t.nextId v),
         { rows := t.rows ++ [S.create t.nextId v], nextId := t.nextId + 1 })) := by
  unfold upsertOne
  rcases hu : updateFirst (fun r => S.conflict v r) (S.merge v) t.rows
    with ⟨o, rows'⟩
  cases o with
  | none =>
    obtain ⟨heq, hall⟩ := updateFirst_eq_none hu
    exact .inr ⟨hall, rfl⟩
  | some r' =>
    obtain ⟨pre, r0, post, hrows, hpre, hp0, hr', hrows'⟩ :=
      updateFirst_eq_some hu
    refine .inl ⟨pre, r0, post, hrows, hpre, hp0, ?_⟩
    rw [hr', hrows']

/-- Unfolding equation for a successful bulk upsert step. -/
theorem bulkUpsert_cons_ok (S : UpsertSpec υ ρ α) (t : Table ρ)
    (prev : List υ) (v : υ) (vs : List υ) (rets : List α) (t'' : Table ρ)
    (h : bulkUpsert S t prev (v :: vs) = .ok (rets, t'')) :
    (∀ v' ∈ prev, S.dup v' v = false) ∧
    ∃ a t1 rets', upsertOne S t v = (a, t1) ∧ rets = a :: rets' ∧
      bulkUpsert S t1 (v :: prev) vs = .ok (rets', t'') := by
  unfold bulkUpsert at h
  split at h
  · cases h
  · next hdup =>
    rcases hup : upsertOne S t v with ⟨a, t1⟩
    rw [hup] at h
    dsimp only at h
    rcases hb : bulkUpsert S t1 (v :: prev) vs with e | p
    · rw [hb] at h; cases h
    · rcases p with ⟨rets', tfin⟩
      rw [hb] at h
      dsimp only at h
      cases h
      refine ⟨?_, a, t1, rets', rfl, rfl, hb⟩
      intro v' hv'
      by_contra hne
      refine hdup (List.any_eq_true.mpr ⟨v', hv', ?_⟩)
      revert hne
      cases S.dup v' v <;> simp

theorem chunkGo_join (n : Nat) :
    ∀ (l cur : List υ) (k : Nat),
      (chunkGo n l cur k).join = cur.reverse ++ l := by
  intro l
  induction l with
  | nil => intro cur k; simp [chunkGo]
  | cons v vs ih =>
    intro cur k
    cases k with
    | zero =>
      unfold chunkGo
      simp [ih]
    | succ k =>
      unfold chunkGo
      rw [ih (v :: cur) k]
      simp

/-- Paging partitions the argslist: the pages concatenate back to it. -/
theorem chunks_join (n : Nat) (l : List υ) : (chunks n l).join = l := by
  unfold chunks
  rw [chunkGo_join]
  rfl

theorem keyConflict_eq {a b : PyVal} (h : keyConflict a b = true) : a = b := by
  have hb : (a == b) = true := by
    simp only [keyConflict, Bool.and_eq_true] at h
    tauto
  exact PyVal.beq_eq _ _ hb

/-- A record whose single author carries no given name. -/
def recC5noGiven : PyVal := .dict
  [("authors", .dict [("author", .list
     [.dict [("@auid", .str "7001"), ("ce:surname", .str "Doe")]])])]

/-- The same author re-submitted with a populated given name. -/
def recC5withGiven : PyVal := .dict
  [("authors", .dict [("author", .list
     [.dict [("@auid", .str "7001"), ("ce:surname", .str "Doe"),
             ("preferred-name", .dict [("ce:given-name", .str "Jane")])]])])]

/-- Database after loading `recC5noGiven` on a fresh connection. -/
def dbC5one : DB :=
  match extractDimensionSets false [recC5noGiven] with
  | .error _ => DB.empty
  | .ok ext =>
    (bulkUpsertDimensions (mkBorrowedLoader ⟨DB.empty, DB.empty, []⟩ false)
      ext).2.conn.db

/-- Database after then re-submitting `recC5withGiven` on a fresh
loader over that state. -/
def dbC5two : DB :=
  match extractDimensionSets false [recC5withGiven] with
  | .error _ => DB.empty
  | .ok ext =>
    (bulkUpsertDimensions (mkBorrowedLoader ⟨dbC5one, dbC5one, []⟩ false)
      ext).2.conn.db

/-- Counterexample to C5 as stated: the author row is created with
`given_name` null, the re-submitted record extracts `given_name =
"Jane"`, yet after the second dimension phase the stored row still has
`given_name` null — the authors upsert coalesces only the surname, so a
populated value does *not* update every fillable attribute. -/
theorem c5_counterexample :
    (extractDimensionSets false [recC5withGiven]).map
        (fun ext => ext.authors.map (fun kv => kv.2.givenName)) =
      .ok [PyVal.str "Jane"] ∧
    dbC5one.authors.rows.map (fun r => r.givenName) = [PyVal.none] ∧
    dbC5two.authors.rows.map (fun r => r.givenName) = [PyVal.none] :=
  ⟨rfl, rfl, rfl⟩

/-- **C5.** (amended)  What each dimension upsert's conflict branch
does, field by field.  A populated new value updates the stored field
and a null new value keeps the stored one for exactly the merged
fields: all six non-key columns of `sources`, all five non-key columns
of `affiliations`, the `surname` of `authors` and the `subject_name`
of `subject_areas`.  Every other column is left exactly as stored by a
conflicting re-submission — in particular `given_name`, `initials` and
`indexed_name` of `authors`, `subject_abbrev` of `subject_areas` and
`keyword_type` of `keywords` are never updated, populated or not.
(In all cases a null never overwrites a populated field.) -/
theorem c5_coalesce_merge :
    (∀ (v : SourceVals) (r : SourceRow),
      (v.sourceName.isNone = false →
        (sourcesBulkSpec.merge v r).sourceName = v.sourceName) ∧
      (v.sourceName.isNone = true →
        (sourcesBulkSpec.merge v r).sourceName = r.sourceName) ∧
      (v.sourceAbbrev.isNone = false →
        (sourcesBulkSpec.merge v r).sourceAbbrev = v.sourceAbbrev) ∧
      (v.sourceAbbrev.isNone = true →
        (sourcesBulkSpec.merge v r).sourceAbbrev = r.sourceAbbrev) ∧
      (v.issnPrint.isNone = false →
        (sourcesBulkSpec.merge v r).issnPrint = v.issnPrint) ∧
      (v.issnPrint.isNone = true →
        (sourcesBulkSpec.merge v r).issnPrint = r.issnPrint) ∧
      (v.issnElectronic.isNone = false →
        (sourcesBulkSpec.merge v r).issnElectronic = v.issnElectronic) ∧
      (v.issnElectronic.isNone = true →
        (sourcesBulkSpec.merge v r).issnElectronic = r.issnElectronic) ∧
      (v.publisher.isNone = false →
        (sourcesBulkSpec.merge v r).publisher = v.publisher) ∧
      (v.publisher.isNone = true →
        (sourcesBulkSpec.merge v r).publisher = r.publisher) ∧
      (v.sourceType.isNone = false →
        (sourcesBulkSpec.merge v r).sourceType = v.sourceType) ∧
      (v.sourceType.isNone = true →
        (sourcesBulkSpec.merge v r).sourceType = r.sourceType)) ∧
    (∀ (v : AffiliationVals) (r : AffiliationRow),
      (v.affiliationName.isNone = false →
        (affiliationsBulkSpec.merge v r).affiliationName =
          v.affiliationName) ∧
      (v.affiliationName.isNone = true →
        (affiliationsBulkSpec.merge v r).affiliationName =
          r.affiliationName) ∧
      (v.city.isNone = false →
        (affiliationsBulkSpec.merge v r).city = v.city) ∧
      (v.city.isNone = true →
        (affiliationsBulkSpec.merge v r).city = r.city) ∧
      (v.state.isNone = false →
        (affiliationsBulkSpec.merge v r).state = v.state) ∧
      (v.state.isNone = true →
        (affiliationsBulkSpec.merge v r).state = r.state) ∧
      (v.country.isNone = false →
        (affiliationsBulkSpec.merge v r).country = v.country) ∧
      (v.country.isNone = true →
        (affiliationsBulkSpec.merge v r).country = r.country) ∧
      (v.postalCode.isNone = false →
        (affiliationsBulkSpec.merge v r).postalCode = v.postalCode) ∧
      (v.postalCode.isNone = true →
        (affiliationsBulkSpec.merge v r).postalCode = r.postalCode)) ∧
    (∀ (v : AuthorVals) (r : AuthorRow),
      (v.surname.isNone = false →
        (authorsBulkSpec.merge v r).surname = v.surname) ∧
      (v.surname.isNone = true →
        (authorsBulkSpec.merge v r).surname = r.surname) ∧
      (authorsBulkSpec.merge v r).givenName = r.givenName ∧
      (authorsBulkSpec.merge v r).initials = r.initials ∧
      (authorsBulkSpec.merge v r).indexedName = r.indexedName) ∧
    (∀ (v : SubjectVals) (r : SubjectRow),
      (v.subjectName.isNone = false →
        (subjectsBulkSpec.merge v r).subjectName = v.subjectName) ∧
      (v.subjectName.isNone = true →
        (subjectsBulkSpec.merge v r).subjectName = r.subjectName) ∧
      (subjectsBulkSpec.merge v r).subjectAbbrev = r.subjectAbbrev) ∧
    (∀ (v : KeywordVals) (r : KeywordRow),
      (keywordsBulkSpec.merge v r).keywordType = r.keywordType) := by
  refine ⟨fun v r => ?_, fun v r => ?_, fun v r => ?_, fun v r => ?_,
    fun v r => rfl⟩
  · exact ⟨fun h => by simp [sourcesBulkSpec, sqlCoalesce, h],
      fun h => by simp [sourcesBulkSpec, sqlCoalesce, h],
      fun h => by simp [sourcesBulkSpec, sqlCoalesce, h],
      fun h => by simp [sourcesBulkSpec, sqlCoalesce, h],
      fun h => by simp [sourcesBulkSpec, sqlCoalesce, h],
      fun h => by simp [sourcesBulkSpec, sqlCoalesce, h],
      fun h => by simp [sourcesBulkSpec, sqlCoalesce, h],
      fun h => by simp [sourcesBulkSpec, sqlCoalesce, h],
      fun h => by simp [sourcesBulkSpec, sqlCoalesce, h],
      fun h => by simp [sourcesBulkSpec, sqlCoalesce, h],
      fun h => by simp [sourcesBulkSpec, sqlCoalesce, h],
      fun h => by simp [sourcesBulkSpec, sqlCoalesce, h]⟩
  · exact ⟨fun h => by simp [affiliationsBulkSpec, sqlCoalesce, h],
      fun h => by simp [affiliationsBulkSpec, sqlCoalesce, h],
      fun h => by simp [affiliationsBulkSpec, sqlCoalesce, h],
      fun h => by simp [affiliationsBulkSpec, sqlCoalesce, h],
      fun h => by simp [affiliationsBulkSpec, sqlCoalesce, h],
      fun h => by simp [affiliationsBulkSpec, sqlCoalesce, h],
      fun h => by simp [affiliationsBulkSpec, sqlCoalesce, h],
      fun h => by simp [affiliationsBulkSpec, sqlCoalesce, h],
      fun h => by simp [affiliationsBulkSpec, sqlCoalesce, h],
      fun h => by simp [affiliationsBulkSpec, sqlCoalesce, h]⟩
  · exact ⟨fun h => by simp [authorsBulkSpec, sqlCoalesce, h],
      fun h => by simp [authorsBulkSpec, sqlCoalesce, h], rfl, rfl, rfl⟩
  · exact ⟨fun h => by simp [subjectsBulkSpec, sqlCoalesce, h],
      fun h => by simp [subjectsBulkSpec, sqlCoalesce, h], rfl⟩

/-- Concrete source value row with a populated name. -/
def vSrcC5 : SourceVals :=
  { sourceName := .str "New", sourceAbbrev := .none
    scopusSourceId := .str "11000", issnPrint := .none
    issnElectronic := .none, publisher := .none, sourceType := .none }

/-- The same value row with a null name. -/
def vSrcC5n : SourceVals := { vSrcC5 with sourceName := .none }

/-- Concrete stored source row with name `"Old"`. -/
def rSrcC5 : SourceRow :=
  { id := 1, sourceName := .str "Old", sourceAbbrev := .none
    scopusSourceId := .str "11000", issnPrint := .none
    issnElectronic := .none, publisher := .none, sourceType := .none }

/-- Concrete author value row with surname and given name populated. -/
def vAuC5 : AuthorVals :=
  { auid := .str "7001", surname := .str "Doe"
    givenName := .str "Jane", initials := .none, indexedName := .none }

/-- Concrete stored author row with every merged field null. -/
def rAuC5 : AuthorRow :=
  { id := 1, auid := .str "7001", surname := .none
    givenName := .none, initials := .none, indexedName := .none }

/-- Witness for C5 at concrete rows: a populated name updates, a null
name keeps the stored value, the surname fills in, and the populated
given name is still ignored. -/
theorem c5_coalesce_merge_witness :
    (sourcesBulkSpec.merge vSrcC5 rSrcC5).sourceName = PyVal.str "New" ∧
    (sourcesBulkSpec.merge vSrcC5n rSrcC5).sourceName = PyVal.str "Old" ∧
    (authorsBulkSpec.merge vAuC5 rAuC5).surname = PyVal.str "Doe" ∧
    (authorsBulkSpec.merge vAuC5 rAuC5).givenName = PyVal.none := by
  have h := c5_coalesce_merge
  exact ⟨(h.1 vSrcC5 rSrcC5).1 rfl, (h.1 vSrcC5n rSrcC5).2.1 rfl,
    (h.2.2.1 vAuC5 rAuC5).1 rfl, (h.2.2.1 vAuC5 rAuC5).2.2.1⟩

/-! ### Claim C7: keyword type precedence within a batch -/

/-- Running the keywords bulk statement over rows in which every row
keyed `kw` is author-typed, starting from a table with no `kw` row (or
one already typed `"author"`), leaves exactly one `kw` row and it is
typed `"author"`. -/
theorem kwBulkUpsert_fresh (kw : PyVal) (hn : kw.isNone = false) :
    ∀ (vs : List KeywordVals) (t : Table KeywordRow)
      (prev : List KeywordVals) (rets : List (Nat × PyVal))
      (t' : Table KeywordRow),
      bulkUpsert keywordsBulkSpec t prev vs = .ok (rets, t') →
      (∀ v ∈ vs, v.keyword = kw → v.keywordType = PyVal.str "author") →
      (t.rows.filter (fun r => r.keyword == kw) = [] ∧
         (∃ v ∈ vs, v.keyword = kw) ∨
       (t.rows.filter (fun r => r.keyword == kw)).map
         (fun r => r.keywordType) = [PyVal.str "author"]) →
      (t'.rows.filter (fun r => r.keyword == kw)).map
        (fun r => r.keywordType) = [PyVal.str "author"] := by
  intro vs
  induction vs with
  | nil =>
    intro t prev rets t' h hall hst
    unfold bulkUpsert at h
    injection h with h1
    injection h1 with ha hb
    subst hb
    rcases hst with ⟨hemp, w, hw, hk⟩ | hga
    · cases hw
    · exact hga
  | cons v vs ih =>
    intro t prev rets t' h hall hst
    obtain ⟨hdup, a, t1, rets', hup, hrets, hrec⟩ :=
      bulkUpsert_cons_ok keywordsBulkSpec t prev v vs rets t' h
    rcases upsertOne_cases keywordsBulkSpec t v with
      ⟨pre, r0, post, hrows, hpre, hc, hup2⟩ | ⟨hallc, hup2⟩
    · rw [hup] at hup2
      injection hup2 with hu1 hu2
      have hme : keywordsBulkSpec.merge v r0 = r0 := by
        have he := keyConflict_eq hc
        show ({ r0 with keyword := v.keyword } : KeywordRow) = r0
        rw [he]
      have ht1 : t1.rows = t.rows := by
        rw [hu2]
        dsimp only
        rw [hme]
        exact hrows.symm
      apply ih t1 (v :: prev) rets' t' hrec
        (fun v' hv' => hall v' (.tail _ hv'))
      rcases hst with ⟨hemp, w, hw, hk⟩ | hga
      · rcases List.mem_cons.mp hw with rfl | hw2
        · exfalso
          have he := keyConflict_eq hc
          have hr0k : r0.keyword = kw := by rw [← he, hk]
          have hmem : r0 ∈ t.rows.filter (fun r => r.keyword == kw) :=
            List.mem_filter.mpr
              ⟨by rw [hrows]; exact List.mem_append_right _ (.head _),
               by rw [hr0k]; exact PyVal.beq_refl kw⟩
          rw [hemp] at hmem
          cases hmem
        · exact .inl ⟨by rw [ht1]; exact hemp, w, hw2, hk⟩
      · exact .inr (by rw [ht1]; exact hga)
    · rw [hup] at hup2
      injection hup2 with hu1 hu2
      by_cases hv : v.keyword = kw
      · have hty : v.keywordType = PyVal.str "author" := hall v (.head _) hv
        have hfe : t.rows.filter (fun r => r.keyword == kw) = [] := by
          rcases hst with ⟨hemp, _⟩ | hga
          · exact hemp
          · exfalso
            rcases hf : t.rows.filter (fun r => r.keyword == kw)
              with _ | ⟨r, rs⟩
            · rw [hf] at hga
              simp at hga
            · obtain ⟨hrt, hrk⟩ := List.mem_filter.mp
                (show r ∈ t.rows.filter (fun r => r.keyword == kw) from
                  by rw [hf]; exact .head _)
              have h2 := hallc r hrt
              have h3 : keywordsBulkSpec.conflict v r = true := by
                show keyConflict v.keyword r.keyword = true
                rw [hv, PyVal.beq_eq _ _ hrk]
                simp [keyConflict, hn, PyVal.beq_refl]
              rw [h2] at h3
              cases h3
        apply ih t1 (v :: prev) rets' t' hrec
          (fun v' hv' => hall v' (.tail _ hv'))
        refine .inr ?_
        rw [hu2]
        dsimp only
        have hcr : ((keywordsBulkSpec.create t.nextId v).keyword == kw)
            = true := by
          show (v.keyword == kw) = true
          rw [hv]
          exact PyVal.beq_refl kw
        rw [List.filter_append, hfe]
        simp [List.filter_cons, hcr, hty, hv, keywordsBulkSpec]
      · have hbe : (v.keyword == kw) = false := by
          rcases hb2 : v.keyword == kw with _ | _
          · rfl
          · exact absurd (PyVal.beq_eq _ _ hb2) hv
        apply ih t1 (v :: prev) rets' t' hrec
          (fun v' hv' => hall v' (.tail _ hv'))
        have ht1f : t1.rows.filter (fun r => r.keyword == kw) =
            t.rows.filter (fun r => r.keyword == kw) := by
          rw [hu2]
          dsimp only
          rw [List.filter_append]
          have hone : List.filter (fun r => r.keyword == kw)
              [keywordsBulkSpec.create t.nextId v] = [] := by
            simp [List.filter_cons, keywordsBulkSpec, hbe]
          rw [hone, List.append_nil]
        rcases hst with ⟨hemp, w, hw, hk⟩ | hga
        · rcases List.mem_cons.mp hw with rfl | hw2
          · exact absurd hk hv
          · exact .inl ⟨by rw [ht1f]; exact hemp, w, hw2, hk⟩
        · exact .inr (by rw [ht1f]; exact hga)

/-- A statement none of whose value rows carries keyword text `kw`
leaves the `kw`-filtered rows unchanged (merges rewrite a conflicting
row's keyword to the equal new value; creates append other texts). -/
theorem kwBulkUpsert_no_kw (kw : PyVal) :
    ∀ (vs : List KeywordVals) (t : Table KeywordRow)
      (prev : List KeywordVals) (rets : List (Nat × PyVal))
      (t' : Table KeywordRow),
      bulkUpsert keywordsBulkSpec t prev vs = .ok (rets, t') →
      (∀ v ∈ vs, (v.keyword == kw) = false) →
      t'.rows.filter (fun r => r.keyword == kw) =
        t.rows.filter (fun r => r.keyword == kw) := by
  intro vs
  induction vs with
  | nil =>
    intro t prev rets t' h hall
    unfold bulkUpsert at h
    injection h with h1
    injection h1 with ha hb
    subst hb
    rfl
  | cons v vs ih =>
    intro t prev rets t' h hall
    obtain ⟨hdup, a, t1, rets', hup, hrets, hrec⟩ :=
      bulkUpsert_cons_ok keywordsBulkSpec t prev v vs rets t' h
    have htail := ih t1 (v :: prev) rets' t' hrec
      (fun v' hv' => hall v' (.tail _ hv'))
    rcases upsertOne_cases keywordsBulkSpec t v with
      ⟨pre, r0, post, hrows, hpre, hc, hup2⟩ | ⟨hallc, hup2⟩
    · rw [hup] at hup2
      injection hup2 with hu1 hu2
      have hme : keywordsBulkSpec.merge v r0 = r0 := by
        have he := keyConflict_eq hc
        show ({ r0 with keyword := v.keyword } : KeywordRow) = r0
        rw [he]
      have ht1 : t1.rows = t.rows := by
        rw [hu2]
        dsimp only
        rw [hme]
        exact hrows.symm
      rw [htail, ht1]
    · rw [hup] at hup2
      injection hup2 with hu1 hu2
      have ht1f : t1.rows.filter (fun r => r.keyword == kw) =
          t.rows.filter (fun r => r.keyword == kw) := by
        rw [hu2]
        dsimp only
        rw [List.filter_append]
        have hone : List.filter (fun r => r.keyword == kw)
            [keywordsBulkSpec.create t.nextId v] = [] := by
          simp [List.filter_cons, keywordsBulkSpec, hall v (.head _)]
        rw [hone, List.append_nil]
      rw [htail, ht1f]

/-- Lift of `kwBulkUpsert_fresh` to the pages of one `execute_values`
call: whichever page carries the (author-typed) keyword creates its
single row, and no other page touches it. -/
theorem kwExecPages_fresh (kw : PyVal) (hn : kw.isNone = false) :
    ∀ (pages : List (List KeywordVals)) (t : Table KeywordRow)
      (rets : List (Nat × PyVal)) (t' : Table KeywordRow),
      execPages keywordsBulkSpec t pages = (.ok rets, t') →
      (∀ v ∈ pages.join, v.keyword = kw →
        v.keywordType = PyVal.str "author") →
      (t.rows.filter (fun r => r.keyword == kw) = [] ∧
         (∃ v ∈ pages.join, v.keyword = kw) ∨
       (t.rows.filter (fun r => r.keyword == kw)).map
         (fun r => r.keywordType) = [PyVal.str "author"]) →
      (t'.rows.filter (fun r => r.keyword == kw)).map
        (fun r => r.keywordType) = [PyVal.str "author"] := by
  intro pages
  induction pages with
  | nil =>
    intro t rets t' h hall hst
    unfold execPages at h
    injection h with h1 h2
    subst h2
    rcases hst with ⟨_, v, hv, _⟩ | hga
    · cases hv
    · exact hga
  | cons page rest ih =>
    intro t rets t' h hall hst
    have hjoin : (page :: rest).join = page ++ rest.join := rfl
    unfold execPages at h
    rcases hbu : bulkUpsert keywordsBulkSpec t [] page with e | p
    · rw [hbu] at h
      injection h with h1 h2
      cases h1
    · rcases p with ⟨r1, t1⟩
      rw [hbu] at h
      dsimp only at h
      have hallp : ∀ v ∈ page, v.keyword = kw →
          v.keywordType = PyVal.str "author" := fun v hv =>
        hall v (by rw [hjoin]; exact List.mem_append_left _ hv)
      by_cases hre : rest.isEmpty = true
      · rw [if_pos hre] at h
        injection h with h1 h2
        subst h2
        have hrnil : rest = [] := by
          cases rest with
          | nil => rfl
          | cons a b => cases hre
        subst hrnil
        apply kwBulkUpsert_fresh kw hn page t [] r1 t1 hbu hallp
        rcases hst with ⟨hemp, v, hv, hveq⟩ | hga
        · refine .inl ⟨hemp, v, ?_, hveq⟩
          rw [hjoin] at hv
          rcases List.mem_append.mp hv with hv | hv
          · exact hv
          · cases hv
        · exact .inr hga
      · rw [if_neg hre] at h
        have hallr : ∀ v ∈ rest.join, v.keyword = kw →
            v.keywordType = PyVal.str "author" := fun v hv =>
          hall v (by rw [hjoin]; exact List.mem_append_right _ hv)
        rcases hst with ⟨hemp, v, hv, hveq⟩ | hga
        · rw [hjoin] at hv
          rcases List.mem_append.mp hv with hvp | hvr
          · have hg1 := kwBulkUpsert_fresh kw hn page t [] r1 t1 hbu hallp
              (.inl ⟨hemp, v, hvp, hveq⟩)
            exact ih t1 rets t' h hallr (.inr hg1)
          · by_cases hpage : ∃ w ∈ page, w.keyword = kw
            · obtain ⟨w, hw, hwk⟩ := hpage
              have hg1 := kwBulkUpsert_fresh kw hn page t [] r1 t1 hbu hallp
                (.inl ⟨hemp, w, hw, hwk⟩)
              exact ih t1 rets t' h hallr (.inr hg1)
            · have hnok : ∀ w ∈ page, (w.keyword == kw) = false := by
                intro w hw
                rcases hb2 : w.keyword == kw with _ | _
                · rfl
                · exact absurd ⟨w, hw, PyVal.beq_eq _ _ hb2⟩ hpage
              have hkeep := kwBulkUpsert_no_kw kw page t [] r1 t1 hbu hnok
              refine ih t1 rets t' h hallr (.inl ⟨?_, v, hvr, hveq⟩)
              rw [hkeep]
              exact hemp
        · have hg1 := kwBulkUpsert_fresh kw hn page t [] r1 t1 hbu hallp
            (.inr hga)
          exact ih t1 rets t' h hallr (.inr hg1)

/-- **C7.** (amended)  For a keyword text that appears among a batch's
author keywords (whatever indexed appearances it also has), if the
keywords table holds no row for that text yet, a successful keywords
step stores it exactly once, typed `"author"`.  (Without the freshness
premise the claim fails: `ON CONFLICT` never updates `keyword_type`,
see the counterexample.) -/
theorem c7_keyword_precedence (l l' : Loader) (ext : Ext) (kw : PyVal)
    (hn : kw.isNone = false) (hkw : kw ∈ ext.keywordsAuthor)
    (hfresh : l.conn.db.keywords.rows.filter (fun r => r.keyword == kw) = [])
    (h : upsertKeywordsStep l ext = (.ok (), l')) :
    (l'.conn.db.keywords.rows.filter (fun r => r.keyword == kw)).map
      (fun r => r.keywordType) = [PyVal.str "author"] := by
  simp only [upsertKeywordsStep] at h
  split at h
  · split at h
    · simp at h
    · next rets t' heq =>
      injection h with h1 h2
      subst h2
      show (t'.rows.filter (fun r => r.keyword == kw)).map
        (fun r => r.keywordType) = [PyVal.str "author"]
      unfold bulkUpsertPaged at heq
      have hjall : (chunks pageSize (allKeywordRows ext)).join =
          allKeywordRows ext := chunks_join pageSize (allKeywordRows ext)
      apply kwExecPages_fresh kw hn
        (chunks pageSize (allKeywordRows ext))
        (l.logOp DbOp.bulkKeywords).conn.db.keywords rets t' heq
      · intro v hv hkeq
        rw [hjall] at hv
        rcases List.mem_append.mp hv with hv | hv
        · obtain ⟨x, hx, rfl⟩ := List.mem_map.mp hv
          rfl
        · obtain ⟨x, hx, rfl⟩ := List.mem_map.mp hv
          exfalso
          obtain ⟨hx1, hx2⟩ := List.mem_filter.mp hx
          have hxkw : x = kw := hkeq
          have hct : ext.keywordsAuthor.contains x = true := by
            rw [hxkw]
            simp only [List.contains]
            exact List.elem_iff.mpr hkw
          rw [hct] at hx2
          simp at hx2
      · refine .inl ⟨?_, ?_⟩
        · have e : (l.logOp DbOp.bulkKeywords).conn.db.keywords =
              l.conn.db.keywords := rfl
          rw [e, hfresh]
        · rw [hjall]
          exact ⟨{ keyword := kw, keywordType := PyVal.str "author" },
            List.mem_append_left _ (List.mem_map_of_mem _ hkw), rfl⟩
  · next hc =>
    exfalso
    have hnil : allKeywordRows ext = [] := by
      cases hs : allKeywordRows ext with
      | nil => rfl
      | cons x xs => exact absurd (by rw [hs]; rfl) hc
    have hmem : ({ keyword := kw, keywordType := PyVal.str "author" } :
        KeywordVals) ∈ allKeywordRows ext :=
      List.mem_append_left _ (List.mem_map_of_mem _ hkw)
    rw [hnil] at hmem
    cases hmem

/-- A record contributing `"K"` as an author keyword. -/
def recC7auth : PyVal := .dict
  [("authkeywords", .dict [("author-keyword", .list [.str "K"])])]

/-- A record contributing `"K"` as an indexed keyword. -/
def recC7idx : PyVal := .dict
  [("idxterms", .dict [("idxterm", .list [.str "K"])])]

/-- The extraction result of that two-record batch. -/
def extC7 : Ext :=
  { sources := [], affiliations := [], authors := [], subjects := []
    keywordsAuthor := [.str "K"], keywordsIndexed := [.str "K"]
    skipSrcAff := false }

/-- A database that already stores `"K"` typed `"indexed"`. -/
def dbC7 : DB :=
  { DB.empty with keywords :=
      { rows := [{ id := 1, keyword := .str "K"
                   keywordType := .str "indexed" }], nextId := 2 } }

/-- Witness for C7 at concrete inputs: over an empty database the
batch with `"K"` as both author and indexed keyword stores one row
typed `"author"`. -/
theorem c7_keyword_precedence_witness :
    ((upsertKeywordsStep (mkBorrowedLoader ⟨DB.empty, DB.empty, []⟩ false)
        extC7).2.conn.db.keywords.rows.filter
        (fun r => r.keyword == PyVal.str "K")).map (fun r => r.keywordType) =
      [PyVal.str "author"] := by
  exact c7_keyword_precedence
    (mkBorrowedLoader ⟨DB.empty, DB.empty, []⟩ false)
    (upsertKeywordsStep (mkBorrowedLoader ⟨DB.empty, DB.empty, []⟩ false)
      extC7).2
    extC7 (PyVal.str "K") rfl (by decide) rfl rfl

/-- Counterexample to C7 as stated: the same batch (`"K"` author in
one record, indexed in another) applied to a database that already
stores `"K"` typed `"indexed"` leaves the row typed `"indexed"`, not
`"author"` — the bulk statement's `ON CONFLICT` clause never updates
`keyword_type`. -/
theorem c7_counterexample :
    extractDimensionSets false [recC7auth, recC7idx] = .ok extC7 ∧
    ((bulkUpsertDimensions (mkBorrowedLoader ⟨dbC7, dbC7, []⟩ false)
        extC7).2.conn.db.keywords.rows.map
      (fun r => (r.keyword, r.keywordType))) =
      [(PyVal.str "K", PyVal.str "indexed")] :=
  ⟨rfl, rfl⟩

/-! ### Claim C8: entities with missing external identifiers -/

/-- A successful `Except` bind splits into a successful first step and
a successful continuation. -/
theorem exceptBind_ok {α β : Type} {x : Except Err α}
    {f : α → Except Err β} {b : β} (h : x >>= f = .ok b) :
    ∃ a, x = .ok a ∧ f a = .ok b := by
  cases x with
  | error e => cases h
  | ok a => exact ⟨a, rfl, h⟩

/-- Every entry of every dimension map carries a truthy (present)
external natural identifier. -/
def KeysTruthy (ext : Ext) : Prop :=
  (∀ kv ∈ ext.sources, kv.2.scopusSourceId.truthy = true) ∧
  (∀ kv ∈ ext.affiliations, kv.2.scopusAffiliationId.truthy = true) ∧
  (∀ kv ∈ ext.authors, kv.2.auid.truthy = true) ∧
  (∀ kv ∈ ext.subjects, kv.2.subjectCode.truthy = true)

theorem extractAffsFold_keys :
    ∀ (xs : List PyVal) (m m' : List (PyVal × AffiliationVals)),
      extractAffsFold m xs = .ok m' →
      (∀ kv ∈ m, kv.2.scopusAffiliationId.truthy = true) →
      ∀ kv ∈ m', kv.2.scopusAffiliationId.truthy = true := by
  intro xs
  induction xs with
  | nil =>
    intro m m' h hm
    cases Except.ok.inj h
    exact hm
  | cons aff rest ih =>
    intro m m' h hm
    unfold extractAffsFold at h
    obtain ⟨scAff, hg, h⟩ := exceptBind_ok h
    split at h
    · next htr =>
      obtain ⟨b, hb, h⟩ := exceptBind_ok h
      split at h
      · obtain ⟨name, _, h⟩ := exceptBind_ok h
        obtain ⟨city, _, h⟩ := exceptBind_ok h
        obtain ⟨st, _, h⟩ := exceptBind_ok h
        obtain ⟨ctry, _, h⟩ := exceptBind_ok h
        obtain ⟨postal, _, h⟩ := exceptBind_ok h
        refine ih _ _ h ?_
        intro kv hkv
        rcases List.mem_append.mp hkv with hkv | hkv
        · exact hm kv hkv
        · cases List.mem_singleton.mp hkv
          exact htr
      · exact ih _ _ h hm
    · exact ih _ _ h hm

theorem extractAuthorsFold_keys :
    ∀ (xs : List PyVal) (m m' : List (PyVal × AuthorVals)),
      extractAuthorsFold m xs = .ok m' →
      (∀ kv ∈ m, kv.2.auid.truthy = true) →
      ∀ kv ∈ m', kv.2.auid.truthy = true := by
  intro xs
  induction xs with
  | nil =>
    intro m m' h hm
    cases Except.ok.inj h
    exact hm
  | cons author rest ih =>
    intro m m' h hm
    unfold extractAuthorsFold at h
    obtain ⟨auid, hg, h⟩ := exceptBind_ok h
    split at h
    · next htr =>
      obtain ⟨b, hb, h⟩ := exceptBind_ok h
      split at h
      · obtain ⟨pref, _, h⟩ := exceptBind_ok h
        obtain ⟨surname, _, h⟩ := exceptBind_ok h
        obtain ⟨given, _, h⟩ := exceptBind_ok h
        obtain ⟨initials, _, h⟩ := exceptBind_ok h
        obtain ⟨indexed, _, h⟩ := exceptBind_ok h
        refine ih _ _ h ?_
        intro kv hkv
        rcases List.mem_append.mp hkv with hkv | hkv
        · exact hm kv hkv
        · cases List.mem_singleton.mp hkv
          exact htr
      · exact ih _ _ h hm
    · exact ih _ _ h hm

theorem extractSubjectsFold_keys :
    ∀ (xs : List PyVal) (m m' : List (PyVal × SubjectVals)),
      extractSubjectsFold m xs = .ok m' →
      (∀ kv ∈ m, kv.2.subjectCode.truthy = true) →
      ∀ kv ∈ m', kv.2.subjectCode.truthy = true := by
  intro xs
  induction xs with
  | nil =>
    intro m m' h hm
    cases Except.ok.inj h
    exact hm
  | cons sa rest ih =>
    intro m m' h hm
    unfold extractSubjectsFold at h
    obtain ⟨code, hg, h⟩ := exceptBind_ok h
    split at h
    · next htr =>
      obtain ⟨b, hb, h⟩ := exceptBind_ok h
      split at h
      · obtain ⟨name, _, h⟩ := exceptBind_ok h
        obtain ⟨abbr, _, h⟩ := exceptBind_ok h
        refine ih _ _ h ?_
        intro kv hkv
        rcases List.mem_append.mp hkv with hkv | hkv
        · exact hm kv hkv
        · cases List.mem_singleton.mp hkv
          exact htr
      · exact ih _ _ h hm
    · exact ih _ _ h hm

theorem extractSourcesSection_keys (acc acc' : Ext) (data core : PyVal)
    (h : extractSourcesSection acc data core = .ok acc')
    (hk : KeysTruthy acc) : KeysTruthy acc' := by
  unfold extractSourcesSection at h
  split at h
  · cases Except.ok.inj h
    exact hk
  · obtain ⟨scSrc, hg, h⟩ := exceptBind_ok h
    split at h
    · next htr =>
      obtain ⟨b, hb, h⟩ := exceptBind_ok h
      split at h
      · obtain ⟨issnList, _, h⟩ := exceptBind_ok h
        dsimp only at h
        split at h <;>
          (obtain ⟨⟨issnP, issnE⟩, _, h⟩ := exceptBind_ok h
           dsimp only at h
           obtain ⟨pubName, _, h⟩ := exceptBind_ok h
           obtain ⟨abbr, _, h⟩ := exceptBind_ok h
           obtain ⟨publisher, _, h⟩ := exceptBind_ok h
           obtain ⟨srcType, _, h⟩ := exceptBind_ok h
           cases Except.ok.inj h
           obtain ⟨hs, ha, hu, hj⟩ := hk
           refine ⟨?_, ha, hu, hj⟩
           intro kv hkv
           rcases List.mem_append.mp hkv with hkv | hkv
           · exact hs kv hkv
           · cases List.mem_singleton.mp hkv
             exact htr)
      · cases Except.ok.inj h
        exact hk
    · cases Except.ok.inj h
      exact hk

theorem extractAffsSection_keys (acc acc' : Ext) (data : PyVal)
    (h : extractAffsSection acc data = .ok acc')
    (hk : KeysTruthy acc) : KeysTruthy acc' := by
  unfold extractAffsSection at h
  split at h
  · cases Except.ok.inj h
    exact hk
  · obtain ⟨affs0, _, h⟩ := exceptBind_ok h
    obtain ⟨affElems, _, h⟩ := exceptBind_ok h
    obtain ⟨affs, hf, h⟩ := exceptBind_ok h
    cases Except.ok.inj h
    exact ⟨hk.1, extractAffsFold_keys _ _ _ hf hk.2.1, hk.2.2.1, hk.2.2.2⟩

theorem extractAuthorsSection_keys (acc acc' : Ext) (data : PyVal)
    (h : extractAuthorsSection acc data = .ok acc')
    (hk : KeysTruthy acc) : KeysTruthy acc' := by
  unfold extractAuthorsSection at h
  obtain ⟨authorsObj, _, h⟩ := exceptBind_ok h
  obtain ⟨authorList, _, h⟩ := exceptBind_ok h
  obtain ⟨authorElems, _, h⟩ := exceptBind_ok h
  obtain ⟨authors, hf, h⟩ := exceptBind_ok h
  cases Except.ok.inj h
  exact ⟨hk.1, hk.2.1, extractAuthorsFold_keys _ _ _ hf hk.2.2.1, hk.2.2.2⟩

theorem extractSubjectsSection_keys (acc acc' : Ext) (data : PyVal)
    (h : extractSubjectsSection acc data = .ok acc')
    (hk : KeysTruthy acc) : KeysTruthy acc' := by
  unfold extractSubjectsSection at h
  obtain ⟨saObj, _, h⟩ := exceptBind_ok h
  obtain ⟨saList, _, h⟩ := exceptBind_ok h
  obtain ⟨saElems, _, h⟩ := exceptBind_ok h
  obtain ⟨subjects, hf, h⟩ := exceptBind_ok h
  cases Except.ok.inj h
  exact ⟨hk.1, hk.2.1, hk.2.2.1, extractSubjectsFold_keys _ _ _ hf hk.2.2.2⟩

theorem extractAuthKwSection_keys (acc acc' : Ext) (data : PyVal)
    (h : extractAuthKwSection acc data = .ok acc')
    (hk : KeysTruthy acc) : KeysTruthy acc' := by
  unfold extractAuthKwSection at h
  obtain ⟨authKw, _, h⟩ := exceptBind_ok h
  split at h
  · obtain ⟨kws0, _, h⟩ := exceptBind_ok h
    obtain ⟨kwElems, _, h⟩ := exceptBind_ok h
    obtain ⟨sres, _, h⟩ := exceptBind_ok h
    cases Except.ok.inj h
    exact hk
  · cases Except.ok.inj h
    exact hk

theorem extractIdxKwSection_keys (acc acc' : Ext) (data : PyVal)
    (h : extractIdxKwSection acc data = .ok acc')
    (hk : KeysTruthy acc) : KeysTruthy acc' := by
  unfold extractIdxKwSection at h
  obtain ⟨idxKw, _, h⟩ := exceptBind_ok h
  split at h
  · obtain ⟨terms, _, h⟩ := exceptBind_ok h
    obtain ⟨termElems, _, h⟩ := exceptBind_ok h
    obtain ⟨sres, _, h⟩ := exceptBind_ok h
    cases Except.ok.inj h
    exact hk
  · cases Except.ok.inj h
    exact hk

theorem extractRecord_keys (acc acc' : Ext) (data : PyVal)
    (h : extractRecord acc data = .ok acc')
    (hk : KeysTruthy acc) : KeysTruthy acc' := by
  unfold extractRecord at h
  obtain ⟨core, _, h⟩ := exceptBind_ok h
  obtain ⟨a1, h1, h⟩ := exceptBind_ok h
  obtain ⟨a2, h2, h⟩ := exceptBind_ok h
  obtain ⟨a3, h3, h⟩ := exceptBind_ok h
  obtain ⟨a4, h4, h⟩ := exceptBind_ok h
  obtain ⟨a5, h5, h⟩ := exceptBind_ok h
  obtain ⟨a6, h6, h⟩ := exceptBind_ok h
  cases Except.ok.inj h
  exact extractIdxKwSection_keys _ _ _ h6
    (extractAuthKwSection_keys _ _ _ h5
      (extractSubjectsSection_keys _ _ _ h4
        (extractAuthorsSection_keys _ _ _ h3
          (extractAffsSection_keys _ _ _ h2
            (extractSourcesSection_keys _ _ _ _ h1 hk)))))

theorem extractGo_keys :
    ∀ (js : List PyVal) (acc ext : Ext),
      extractDimensionSets.go acc js = .ok ext →
      KeysTruthy acc → KeysTruthy ext := by
  intro js
  induction js with
  | nil =>
    intro acc ext h hk
    cases Except.ok.inj h
    exact hk
  | cons data rest ih =>
    intro acc ext h hk
    unfold extractDimensionSets.go at h
    obtain ⟨acc1, h1, h⟩ := exceptBind_ok h
    exact ih _ _ h (extractRecord_keys _ _ _ h1 hk)

/-- **C8.** (amended)  Extraction skips every dimension entity whose
external natural identifier is absent: each entry of every
deduplicated dimension map of a successful extraction carries a truthy
`@srcid` / `@id` / `@auid` / `@code`, so the dimension-phase bulk
statements never create a row from an entity with a missing
identifier.  (The link phase is the exception the counterexample
shows: `_resolve_source_id`'s fallback inserts a `sources` row whose
`scopus_source_id` is NULL.) -/
theorem c8_skip_missing_ids (dis : Bool) (js : List PyVal) (ext : Ext)
    (h : extractDimensionSets dis js = .ok ext) : KeysTruthy ext := by
  unfold extractDimensionSets at h
  refine extractGo_keys js _ ext h ?_
  refine ⟨?_, ?_, ?_, ?_⟩ <;>
    exact fun kv hkv => absurd hkv (List.not_mem_nil kv)

/-- A record whose author, affiliation and subject entries all lack
their external identifier. -/
def recC8 : PyVal := .dict
  [("authors", .dict [("author", .list
     [.dict [("ce:surname", .str "NoId")]])]),
   ("affiliation", .dict [("affilname", .str "Somewhere")]),
   ("subject-areas", .dict [("subject-area", .list
     [.dict [("$", .str "Medicine")]])])]

/-- Extraction result of `[recC8]`: every entity was skipped. -/
def extC8 : Ext :=
  { sources := [], affiliations := [], authors := [], subjects := []
    keywordsAuthor := [], keywordsIndexed := [], skipSrcAff := false }

/-- Witness for C8: the id-less record extracts successfully (skip,
not fail) and the resulting maps satisfy the key-truthiness bound. -/
theorem c8_skip_missing_ids_witness :
    extractDimensionSets false [recC8] = .ok extC8 ∧ KeysTruthy extC8 :=
  ⟨rfl, c8_skip_missing_ids false [recC8] extC8 rfl⟩

/-- Counterexample to C8 as stated: resolving the source of a record
with no `@srcid` does *not* skip the entity — `_resolve_source_id`
falls through to its single-row insert and creates a `sources` row
whose natural key `scopus_source_id` is NULL. -/
theorem c8_counterexample :
    (resolveSourceId (mkBorrowedLoader ⟨DB.empty, DB.empty, []⟩ false)
        (PyVal.dict [])).1 = .ok 1 ∧
    ((resolveSourceId (mkBorrowedLoader ⟨DB.empty, DB.empty, []⟩ false)
        (PyVal.dict [])).2.conn.db.sources.rows.map
      (fun r => r.scopusSourceId)) = [PyVal.none] :=
  ⟨rfl, rfl⟩

/-! ### Claim C9: single-object vs list normalization -/

/-- A funding wrapper whose `xocs:funding` field is `v`. -/
def fundListC9 (v : PyVal) : PyVal := .dict
  [("item", .dict [("xocs:meta", .dict
     [("xocs:funding-list", .dict [("xocs:funding", v)])])])]

/-- A funding entry whose `xocs:funding-id` field is `g`. -/
def fundEntryC9 (g : PyVal) : PyVal := .dict
  [("xocs:funding-agency", .str "Agency"), ("xocs:funding-id", g)]

/-- **C9.** (amended)  The single-object-or-list contract holds for
the sites that normalize: a truthy non-list value for a record's
affiliation field, author-keyword list, funding-entry list or
grant-id list is processed exactly like the one-element list holding
it.  (It does **not** hold for indexed terms — iterated raw, a single
dict iterates over its keys — nor for the bulk loader's reference
list; see the counterexample.) -/
theorem c9_normalization :
    (∀ (acc : Ext) (x : PyVal), x.truthy = true → x.isList = false →
      extractAffsSection acc (.dict [("affiliation", x)]) =
        extractAffsSection acc (.dict [("affiliation", .list [x])])) ∧
    (∀ (acc : Ext) (x : PyVal), x.truthy = true → x.isList = false →
      extractAuthKwSection acc
          (.dict [("authkeywords", .dict [("author-keyword", x)])]) =
        extractAuthKwSection acc
          (.dict [("authkeywords",
             .dict [("author-keyword", .list [x])])])) ∧
    (∀ (l : Loader) (pid : Nat) (x : PyVal),
      x.truthy = true → x.isList = false →
      insertFunding l (fundListC9 x) pid =
        insertFunding l (fundListC9 (.list [x])) pid) ∧
    (∀ (l : Loader) (pid : Nat) (x : PyVal),
      x.truthy = true → x.isList = false →
      processFundingEntries l pid [fundEntryC9 x] =
        processFundingEntries l pid [fundEntryC9 (.list [x])]) := by
  refine ⟨?_, ?_, ?_, ?_⟩
  · intro acc x hT hL
    have hn : normToList x = PyVal.list [x] := by
      unfold normToList
      rw [hT, hL]
      rfl
    have hn2 : normToList (PyVal.list [x]) = PyVal.list [x] := rfl
    unfold extractAffsSection
    split
    · rfl
    · rw [show pyGet (PyVal.dict [("affiliation", x)]) "affiliation"
            (PyVal.list []) = Except.ok x from rfl,
          show pyGet (PyVal.dict [("affiliation", PyVal.list [x])])
            "affiliation" (PyVal.list []) =
            Except.ok (PyVal.list [x]) from rfl]
      simp only [Bind.bind, Except.bind]
      rw [hn, hn2]
  · intro acc x hT hL
    unfold extractAuthKwSection
    rw [show pyGet
          (PyVal.dict [("authkeywords",
            PyVal.dict [("author-keyword", x)])])
          "authkeywords" (PyVal.dict []) =
          Except.ok (PyVal.dict [("author-keyword", x)]) from rfl,
        show pyGet
          (PyVal.dict [("authkeywords",
            PyVal.dict [("author-keyword", PyVal.list [x])])])
          "authkeywords" (PyVal.dict []) =
          Except.ok (PyVal.dict [("author-keyword", PyVal.list [x])])
          from rfl]
    simp only [Bind.bind, Except.bind]
    rw [if_pos (show (PyVal.dict [("author-keyword", x)]).truthy = true
          from rfl)]
    rw [if_pos (show (PyVal.dict
          [("author-keyword", PyVal.list [x])]).truthy = true from rfl)]
    rw [show pyGet (PyVal.dict [("author-keyword", x)]) "author-keyword"
          (PyVal.list []) = Except.ok x from rfl,
        show pyGet (PyVal.dict [("author-keyword", PyVal.list [x])])
          "author-keyword" (PyVal.list []) =
          Except.ok (PyVal.list [x]) from rfl]
    simp only [Bind.bind, Except.bind]
    have hor : pyOr x (PyVal.list []) = x := by
      unfold pyOr
      rw [hT]
      rfl
    have hor2 : pyOr (PyVal.list [x]) (PyVal.list []) = PyVal.list [x] := rfl
    rw [hor, hor2, hL]
    rw [if_pos (show ((!false) = true) from rfl)]
    rw [if_neg (show ¬((!(PyVal.list [x]).isList) = true) from
          by simp [PyVal.isList])]
  · intro l pid x hT hL
    have hn : normToList x = PyVal.list [x] := by
      unfold normToList
      rw [hT, hL]
      rfl
    unfold insertFunding
    rw [show (do
          let item ← pyGet (fundListC9 x) "item" (.dict [])
          let meta ← pyGet item "xocs:meta" (.dict [])
          let fundingList ← pyGet meta "xocs:funding-list" (.dict [])
          let srcs0 ← pyGet fundingList "xocs:funding" (.list [])
          pyIter (pyOr (normToList srcs0) (.list []))
          : Except Err (List PyVal)) = .ok [x] from by
        show pyIter (pyOr (normToList x) (PyVal.list [])) =
          Except.ok [x]
        rw [hn]
        rfl,
      show (do
          let item ← pyGet (fundListC9 (PyVal.list [x])) "item" (.dict [])
          let meta ← pyGet item "xocs:meta" (.dict [])
          let fundingList ← pyGet meta "xocs:funding-list" (.dict [])
          let srcs0 ← pyGet fundingList "xocs:funding" (.list [])
          pyIter (pyOr (normToList srcs0) (.list []))
          : Except Err (List PyVal)) = .ok [x] from by
        show pyIter (pyOr (normToList (PyVal.list [x])) (PyVal.list [])) =
          Except.ok [x]
        rfl]
  · intro l pid x hT hL
    have hn : normToList x = PyVal.list [x] := by
      unfold normToList
      rw [hT, hL]
      rfl
    simp only [processFundingEntries]
    rw [show resolveFundingAgency l (fundEntryC9 (PyVal.list [x])) =
        resolveFundingAgency l (fundEntryC9 x) from rfl]
    rcases hr : resolveFundingAgency l (fundEntryC9 x) with ⟨r, l2⟩
    cases r with
    | error e => rfl
    | ok agencyId =>
      dsimp only
      have hg : (do
          let gids0 ← pyGet (fundEntryC9 x) "xocs:funding-id" (.list [])
          let gids1 := normToList gids0
          let gids := if !gids1.truthy then PyVal.list [.none] else gids1
          pyIter gids : Except Err (List PyVal)) = .ok [x] := by
        show pyIter (if !(normToList x).truthy then PyVal.list [.none]
          else normToList x) = Except.ok [x]
        rw [hn]
        rfl
      have hg2 : (do
          let gids0 ← pyGet (fundEntryC9 (PyVal.list [x]))
            "xocs:funding-id" (.list [])
          let gids1 := normToList gids0
          let gids := if !gids1.truthy then PyVal.list [.none] else gids1
          pyIter gids : Except Err (List PyVal)) = .ok [x] := by
        show pyIter (if !(normToList (PyVal.list [x])).truthy
          then PyVal.list [.none] else normToList (PyVal.list [x])) =
          Except.ok [x]
        rfl
      rw [hg, hg2]

/-- A record whose `idxterms.idxterm` is a single dict. -/
def recC9single : PyVal := .dict
  [("idxterms", .dict [("idxterm", .dict [("$", .str "X")])])]

/-- The same record with the dict wrapped in a one-element list. -/
def recC9list : PyVal := .dict
  [("idxterms", .dict [("idxterm", .list [.dict [("$", .str "X")]])])]

/-- Counterexample to C9 as stated: indexed terms are *not* normalized
— a single `idxterm` dict is iterated over its keys, extracting the
literal key `"$"` instead of the term `"X"` that the one-element list
form yields. -/
theorem c9_counterexample :
    (extractDimensionSets false [recC9single]).map
        (fun e => e.keywordsIndexed) = .ok [PyVal.str "$"] ∧
    (extractDimensionSets false [recC9list]).map
        (fun e => e.keywordsIndexed) = .ok [PyVal.str "X"] ∧
    PyVal.str "$" ≠ PyVal.str "X" :=
  ⟨rfl, rfl, by decide⟩

/-- Witness for C9 at concrete inputs: a single affiliation dict, a
single author keyword and a single funding entry each behave like
their one-element-list forms. -/
theorem c9_normalization_witness :
    extractAffsSection extC8
        (.dict [("affiliation", .dict [("@id", .str "60001")])]) =
      extractAffsSection extC8
        (.dict [("affiliation", .list [.dict [("@id", .str "60001")]])]) ∧
    extractAuthKwSection extC8
        (.dict [("authkeywords",
           .dict [("author-keyword", .str "ml")])]) =
      extractAuthKwSection extC8
        (.dict [("authkeywords",
           .dict [("author-keyword", .list [.str "ml"])])]) ∧
    processFundingEntries (mkBorrowedLoader ⟨DB.empty, DB.empty, []⟩ false) 1
        [fundEntryC9 (.str "G1")] =
      processFundingEntries (mkBorrowedLoader ⟨DB.empty, DB.empty, []⟩ false) 1
        [fundEntryC9 (.list [.str "G1"])] :=
  ⟨c9_normalization.1 extC8 (.dict [("@id", .str "60001")]) rfl rfl,
   c9_normalization.2.1 extC8 (.str "ml") rfl rfl,
   c9_normalization.2.2.2 (mkBorrowedLoader ⟨DB.empty, DB.empty, []⟩ false) 1
     (.str "G1") rfl rfl⟩

/-! ### Claim C10: progress-callback exceptions are suppressed -/

end Scopus
